import Mathlib

/-!
Verification development for the gomandel tile scheduler (`src/unnamed/part_000`,
a Go program).  The Go code is shallowly embedded:

* Go `float64` values are modelled by `F64`, an exact fraction of two `Int`s
  with a positive-denominator convention.  Every numeric literal appearing in
  the relevant Go code (`-1.5`, `3`, screen sizes, tile divisors) is a dyadic
  rational, and every operation the scheduler performs on them (add, sub, mul,
  div) is exact in binary floating point for the concrete inputs evaluated
  here, so exact fractions are a faithful model of those computations.
* Go `int` of that era is 32 bits wide, and the conversion `int(f)` of a
  `float64` truncates toward zero; when the value does not fit (including
  `±Inf` and `NaN`, which arise from division by zero) the x86 conversion
  yields `-2147483648`, the sentinel the source itself tests against
  (line 558).  `goInt32` models exactly this.  A fraction with denominator `0`
  is the model of `±Inf`/`NaN`.
* Channels, goroutines and in-place mutation are modelled by explicit state
  passing, event lists (`Ev`), and small transition systems.
-/

/-- Exact rational model of a Go `float64` value: the fraction `num / den`.
All constructors and operations keep `den` positive (division by a zero
value is the one exception and yields `den = 0`, the model of `±Inf`/`NaN`). -/
structure F64 where
  num : ℤ
  den : ℤ
  deriving DecidableEq, Repr

namespace F64

/-- Embeds a Go integer literal or `float64(intExpr)` conversion. -/
def ofInt (n : ℤ) : F64 := ⟨n, 1⟩

/-- Go `+` on float64. -/
def add (a b : F64) : F64 := ⟨a.num * b.den + b.num * a.den, a.den * b.den⟩

/-- Go binary `-` on float64. -/
def sub (a b : F64) : F64 := ⟨a.num * b.den - b.num * a.den, a.den * b.den⟩

/-- Go `*` on float64. -/
def mul (a b : F64) : F64 := ⟨a.num * b.num, a.den * b.den⟩

/-- Go unary `-` on float64. -/
def neg (a : F64) : F64 := ⟨-a.num, a.den⟩

/-- Go `/` on float64.  The sign is normalised into the numerator so the
denominator stays positive; dividing by a zero value gives denominator `0`,
the model of the IEEE `±Inf`/`NaN` results Go would produce. -/
def div (a b : F64) : F64 :=
  let n := a.num * b.den
  let d := a.den * b.num
  if d < 0 then ⟨-n, -d⟩ else ⟨n, d⟩

/-- Go `<` on float64, by cross multiplication (valid for the positive
denominators maintained by the operations above). -/
def lt (a b : F64) : Bool := decide (a.num * b.den < b.num * a.den)

/-- Go `<=` on float64, by cross multiplication. -/
def le (a b : F64) : Bool := decide (a.num * b.den ≤ b.num * a.den)

/-- Go `>` on float64. -/
def gt (a b : F64) : Bool := b.lt a

/-- Truncation toward zero of the value, as performed by Go conversion of a
float64 to an integer type (before the range check of `goInt32`). -/
def trunc (a : F64) : ℤ := a.num.tdiv a.den

end F64

/-- The value `int(f)` produced by 2010-era Go (32-bit `int`) on x86 for a
float64 `f`: truncation toward zero, and the sentinel `-2147483648` whenever
the truncated value does not fit in 32 bits or `f` is `±Inf`/`NaN`
(denominator `0` in this model). -/
def goInt32 (a : F64) : ℤ :=
  if a.den = 0 ∨ a.trunc < -2147483648 ∨ 2147483647 < a.trunc then -2147483648
  else a.trunc

/-- The sentinel produced by an overflowing float-to-int conversion, which
`TileManager.ZoomRequest` tests against (source line 558). -/
def minInt32 : ℤ := -2147483648

/-- Source lines 119-122: a rectangle in fractal coordinate space. -/
structure Rect where
  X : F64
  Y : F64
  W : F64
  H : F64
  deriving DecidableEq, Repr

/-- Source lines 320-325 (`MaxFloat64`). -/
def MaxFloat64 (i1 i2 : F64) : F64 := if i1.gt i2 then i1 else i2

/-- Source lines 313-318 (`MinFloat64`). -/
def MinFloat64 (i1 i2 : F64) : F64 := if i1.lt i2 then i1 else i2

/-- Source lines 589-598 (`overlaps`): non-strict axis-aligned rectangle
intersection test (touching edges do not count). -/
def overlaps (r1 r2 : Rect) : Bool :=
  let maxX := MaxFloat64 r1.X r2.X
  let minX := MinFloat64 (r1.X.add r1.W) (r2.X.add r2.W)
  let ix := minX.gt maxX
  let maxY := MaxFloat64 r1.Y r2.Y
  let minY := MinFloat64 (r1.Y.add r1.H) (r2.Y.add r2.H)
  let iy := minY.gt maxY
  ix && iy

/-- Source lines 295-297: a screen-space point. -/
structure Point where
  X : ℤ
  Y : ℤ
  deriving DecidableEq, Repr

/-- Literal `-1.5` from the source. -/
def negOnePointFive : F64 := ⟨-3, 2⟩

/-- Literal `1.5` from the source. -/
def onePointFive : F64 := ⟨3, 2⟩

/-- Source line 731 and line 560: the rectangle `{-1.5, -1.5, 3, 3}`. -/
def initialRect : Rect := ⟨negOnePointFive, negOnePointFive, F64.ofInt 3, F64.ofInt 3⟩

/-- Source lines 674-682: the candidate shifted rectangle `r` computed by
`moveRectBy` before the bounds test. -/
def shiftedRect (what : Rect) (e s : Point) (w h : ℤ) : Rect :=
  let pixw := what.W.div (F64.ofInt w)
  let pixh := what.H.div (F64.ofInt h)
  { X := what.X.add ((F64.ofInt (e.X - s.X)).mul pixw)
    Y := what.Y.add ((F64.ofInt (e.Y - s.Y)).mul pixh)
    W := what.W
    H := what.H }

/-- The bounds test of source line 683: true when the rectangle extends
outside the square `[-1.5, 1.5] × [-1.5, 1.5]` spanned by `{-1.5,-1.5,3,3}`. -/
def outsideInitialSquare (r : Rect) : Bool :=
  r.X.lt negOnePointFive || r.Y.lt negOnePointFive ||
  (r.X.add r.W).gt onePointFive || (r.Y.add r.H).gt onePointFive

/-- Source lines 674-687 (`moveRectBy`): shift the viewport by a screen-space
delta, but return the input unchanged if the shifted rectangle leaves the
square spanned by `{-1.5, -1.5, 3, 3}`. -/
def moveRectBy (what : Rect) (e s : Point) (w h : ℤ) : Rect :=
  let r := shiftedRect what e s w h
  if outsideInitialSquare r then what else r

/-- Containment of a rectangle in the square spanned by the initial viewport
`{-1.5, -1.5, 3, 3}`, i.e. `[-1.5, 1.5] × [-1.5, 1.5]`. -/
def inInitialSquare (r : Rect) : Bool :=
  negOnePointFive.le r.X && negOnePointFive.le r.Y &&
  (r.X.add r.W).le onePointFive && (r.Y.add r.H).le onePointFive

theorem F64.le_of_not_lt {a b : F64} (h : a.lt b = false) : b.le a = true := by
  simp only [F64.lt, F64.le, decide_eq_false_iff_not, decide_eq_true_eq, not_lt] at *
  exact h

theorem F64.le_of_not_gt {a b : F64} (h : a.gt b = false) : a.le b = true :=
  F64.le_of_not_lt h

/-- C9: for every viewport rectangle and every pan delta, `moveRectBy` returns
the viewport unchanged whenever the shifted rectangle would extend outside the
square `{-1.5, -1.5, 3, 3}`; consequently panning can never move the viewport
outside the initial region. -/
theorem c9_moveRectBy_clamped (what : Rect) (e s : Point) (w h : ℤ) :
    (outsideInitialSquare (shiftedRect what e s w h) = true →
      moveRectBy what e s w h = what)
    ∧ (inInitialSquare what = true → inInitialSquare (moveRectBy what e s w h) = true) := by
  constructor
  · intro hout
    unfold moveRectBy
    simp [hout]
  · intro hin
    unfold moveRectBy
    rcases hb : outsideInitialSquare (shiftedRect what e s w h) with _ | _
    · have hb4 := hb
      unfold outsideInitialSquare at hb4
      simp only [Bool.or_eq_false_iff] at hb4
      obtain ⟨⟨⟨h1, h2⟩, h3⟩, h4⟩ := hb4
      simp only [hb, if_false, Bool.false_eq_true]
      unfold inInitialSquare
      simp only [Bool.and_eq_true]
      exact ⟨⟨⟨F64.le_of_not_lt h1, F64.le_of_not_lt h2⟩,
        F64.le_of_not_gt h3⟩, F64.le_of_not_gt h4⟩
    · simpa [hb] using hin

/-- Witness for C9 at a concrete input: panning the initial viewport left by
one pixel is rejected (the shifted rectangle leaves the square), and the
result of the call stays inside the initial square. -/
theorem c9_moveRectBy_clamped_witness :
    outsideInitialSquare (shiftedRect initialRect ⟨1, 0⟩ ⟨0, 0⟩ 512 512) = true ∧
    moveRectBy initialRect ⟨1, 0⟩ ⟨0, 0⟩ 512 512 = initialRect ∧
    inInitialSquare (moveRectBy initialRect ⟨1, 0⟩ ⟨0, 0⟩ 512 512) = true := by
  refine ⟨by decide, ?_, ?_⟩
  · exact (c9_moveRectBy_clamped initialRect ⟨1, 0⟩ ⟨0, 0⟩ 512 512).1 (by decide)
  · exact (c9_moveRectBy_clamped initialRect ⟨1, 0⟩ ⟨0, 0⟩ 512 512).2 (by decide)

/-- Observable side effects of the tile and tile-manager operations.
`cancel tid did` records a send of `true` on the `Discarder` channel `did` of
tile `tid` (source lines 456 and 464); `enq tid w h r did` records a
`Queue.Enqueue(w, h, r, discarder, tile)` call (source lines 471 and 479);
`tooClose` records the `"Too close, sorry"` message of line 559; and
`missingFree` records the `"missing free tiles"` message of line 651. -/
inductive Ev where
  | cancel (tid : Nat) (did : Nat)
  | enq (tid : Nat) (w : ℤ) (h : ℤ) (r : Rect) (did : Nat)
  | tooClose
  | missingFree
  deriving DecidableEq, Repr

/-- Source lines 428-442: one tile.  GPU texture handles are modelled as
optional buffer identifiers, the `Discarder` channel of a tile is identified
by the number `Discarder` (a fresh number is minted for each channel, from a
counter threaded through the operations), and `id` identifies the tile object
itself (the Go program manipulates a fixed pool of distinct tile pointers). -/
structure Tile where
  id : Nat
  Texture0 : Option Nat
  Texture1 : Option Nat
  CurrentLOD : ℤ
  W : ℤ
  H : ℤ
  SW : ℤ
  SH : ℤ
  What : Rect
  X : ℤ
  Y : ℤ
  Discarder : Nat
  Enqueued : Bool
  deriving DecidableEq, Repr

instance : Inhabited Tile :=
  ⟨⟨0, none, none, -1, 0, 0, 0, 0, ⟨⟨0, 1⟩, ⟨0, 1⟩, ⟨0, 1⟩, ⟨0, 1⟩⟩, 0, 0, 0, false⟩⟩

/-- Source lines 444-452 (`NewTile`): a fresh tile with no texture
(`CurrentLOD = -1`) and nothing enqueued. -/
def NewTile (w h sw sh : ℤ) (tid : Nat) : Tile :=
  ⟨tid, none, none, -1, w, h, sw, sh, ⟨⟨0, 1⟩, ⟨0, 1⟩, ⟨0, 1⟩, ⟨0, 1⟩⟩, 0, 0, 0, false⟩

/-- Source lines 454-460 (`Tile.Reset`): cancel any enqueued or in-flight work
by sending on the `Discarder` channel, then drop back to `CurrentLOD = -1`. -/
def Tile.Reset (t : Tile) : Tile × List Ev :=
  if t.Enqueued then
    ({ t with Enqueued := false, CurrentLOD := -1 }, [Ev.cancel t.id t.Discarder])
  else
    ({ t with CurrentLOD := -1 }, [])

/-- Source lines 462-472 (`Tile.Request`): cancel any outstanding work, adopt
the new placement and region, create a fresh `Discarder` channel (modelled by
the counter `ctr`), and enqueue a low-resolution (`SW × SH`) request.  Returns
the updated tile, the emitted events, and the next fresh channel number. -/
def Tile.Request (t : Tile) (px py : ℤ) (r : Rect) (ctr : Nat) : Tile × List Ev × Nat :=
  let evs := if t.Enqueued then [Ev.cancel t.id t.Discarder] else []
  let t' : Tile := { t with CurrentLOD := -1, X := px, Y := py, What := r,
                            Discarder := ctr, Enqueued := true }
  (t', evs ++ [Ev.enq t.id t.SW t.SH r ctr], ctr + 1)

/-- Source lines 474-489 (`Tile.ApplyData`): dispatch a completed buffer on
the current LOD.  In state `-1` the buffer becomes the low-resolution texture
and a full-resolution (`W × H`) request is enqueued on the same `Discarder`
channel; in state `0` the buffer becomes the high-resolution texture and the
tile is done; state `1` (and any other state) panics (`none`). -/
def Tile.ApplyData (t : Tile) (data : Nat) : Option (Tile × List Ev) :=
  if t.CurrentLOD = -1 then
    some ({ t with Texture0 := some data, CurrentLOD := 0 },
          [Ev.enq t.id t.W t.H t.What t.Discarder])
  else if t.CurrentLOD = 0 then
    some ({ t with Texture1 := some data, CurrentLOD := 1, Enqueued := false }, [])
  else
    none

/-- One observable transition of a single tile: a completed buffer applied by
the queue (source line 271), a `Reset`, or a `Request`. -/
inductive TileStep : Tile → Tile → Prop where
  | apply {t t' : Tile} (data : Nat) (evs : List Ev) :
      t.ApplyData data = some (t', evs) → TileStep t t'
  | reset (t : Tile) : TileStep t t.Reset.1
  | request (t : Tile) (px py : ℤ) (r : Rect) (ctr : Nat) :
      TileStep t (t.Request px py r ctr).1

/-- Tile states reachable from a freshly constructed tile under the
operations of the program. -/
inductive TileReach : Tile → Prop where
  | new (w h sw sh : ℤ) (tid : Nat) : TileReach (NewTile w h sw sh tid)
  | step {t t' : Tile} : TileReach t → TileStep t t' → TileReach t'

theorem Tile.reset_lod (t : Tile) : t.Reset.1.CurrentLOD = -1 := by
  unfold Tile.Reset
  rcases h : t.Enqueued with _ | _ <;> simp [h]

theorem Tile.request_lod (t : Tile) (px py : ℤ) (r : Rect) (ctr : Nat) :
    (t.Request px py r ctr).1.CurrentLOD = -1 := rfl

theorem Tile.applyData_lod {t t' : Tile} {data : Nat} {evs : List Ev}
    (h : t.ApplyData data = some (t', evs)) :
    (t.CurrentLOD = -1 ∧ t'.CurrentLOD = 0) ∨ (t.CurrentLOD = 0 ∧ t'.CurrentLOD = 1) := by
  unfold Tile.ApplyData at h
  by_cases h0 : t.CurrentLOD = -1
  · rw [if_pos h0] at h
    simp only [Option.some_inj, Prod.mk.injEq] at h
    left
    exact ⟨h0, by rw [← h.1]⟩
  · rw [if_neg h0] at h
    by_cases h1 : t.CurrentLOD = 0
    · rw [if_pos h1] at h
      simp only [Option.some_inj, Prod.mk.injEq] at h
      right
      exact ⟨h1, by rw [← h.1]⟩
    · rw [if_neg h1] at h
      exact absurd h (by simp)

theorem Tile.applyData_final {t : Tile} (h1 : t.CurrentLOD = 1) (data : Nat) :
    t.ApplyData data = none := by
  unfold Tile.ApplyData
  rw [h1]
  simp

theorem tileReach_lod_cases {t : Tile} (h : TileReach t) :
    t.CurrentLOD = -1 ∨ t.CurrentLOD = 0 ∨ t.CurrentLOD = 1 := by
  induction h with
  | new w h sw sh tid => left; rfl
  | step _ hs ih =>
      cases hs with
      | apply data evs happ =>
          rcases Tile.applyData_lod happ with ⟨_, h0⟩ | ⟨_, h0⟩
          · right; left; exact h0
          · right; right; exact h0
      | reset => exact Or.inl (Tile.reset_lod _)
      | request px py r ctr => exact Or.inl (Tile.request_lod _ px py r ctr)

/-- C4: for every reachable tile state, the LOD field only transitions
Empty (`-1`) to Preview (`0`) on a completion, Preview (`0`) to Final (`1`)
on a completion, or any state to Empty via `Reset` or a new `Request`; a
completion delivered to a tile already in Final state is a fatal
internal-consistency violation (`ApplyData` returns `none`, the model of the
`panic("unreachable")` of source line 485), never a silent state change. -/
theorem c4_tile_lod_transitions (t : Tile) (hreach : TileReach t) :
    (t.CurrentLOD = -1 ∨ t.CurrentLOD = 0 ∨ t.CurrentLOD = 1)
    ∧ (∀ data t' evs, t.ApplyData data = some (t', evs) →
        (t.CurrentLOD = -1 ∧ t'.CurrentLOD = 0) ∨
        (t.CurrentLOD = 0 ∧ t'.CurrentLOD = 1))
    ∧ (t.CurrentLOD = 1 → ∀ data, t.ApplyData data = none)
    ∧ (t.Reset.1.CurrentLOD = -1)
    ∧ (∀ px py r ctr, (t.Request px py r ctr).1.CurrentLOD = -1) := by
  refine ⟨tileReach_lod_cases hreach, ?_, ?_, Tile.reset_lod t, ?_⟩
  · intro data t' evs happ
    exact Tile.applyData_lod happ
  · intro h1 data
    exact Tile.applyData_final h1 data
  · intro px py r ctr
    exact Tile.request_lod t px py r ctr

/-- Witness for C4: a freshly constructed tile is reachable and satisfies the
transition discipline; in particular a first completion moves it
Empty to Preview. -/
theorem c4_tile_lod_transitions_witness :
    ((NewTile 64 64 16 16 0).CurrentLOD = -1 ∨ (NewTile 64 64 16 16 0).CurrentLOD = 0 ∨
      (NewTile 64 64 16 16 0).CurrentLOD = 1)
    ∧ (∀ data t' evs, (NewTile 64 64 16 16 0).ApplyData data = some (t', evs) →
        ((NewTile 64 64 16 16 0).CurrentLOD = -1 ∧ t'.CurrentLOD = 0) ∨
        ((NewTile 64 64 16 16 0).CurrentLOD = 0 ∧ t'.CurrentLOD = 1))
    ∧ ((NewTile 64 64 16 16 0).CurrentLOD = 1 →
        ∀ data, (NewTile 64 64 16 16 0).ApplyData data = none)
    ∧ ((NewTile 64 64 16 16 0).Reset.1.CurrentLOD = -1)
    ∧ (∀ px py r ctr, ((NewTile 64 64 16 16 0).Request px py r ctr).1.CurrentLOD = -1) :=
  c4_tile_lod_transitions (NewTile 64 64 16 16 0) (TileReach.new 64 64 16 16 0)

/-- Concrete tile used to settle C6: Empty (`CurrentLOD = -1`), pending
(`Enqueued = true`), with `Discarder` channel number `5`, full resolution
`64 × 64` and preview resolution `16 × 16`. -/
def tileC6 : Tile :=
  ⟨0, none, none, -1, 64, 64, 16, 16, initialRect, 0, 0, 5, true⟩

/-- Counterexample to C6 as stated: when the Empty tile `tileC6` receives its
preview completion, `ApplyData` does install the buffer and enqueue the
full-resolution (`W × H = 64 × 64`) request, but the enqueued request carries
the very same `Discarder` channel (number `5`) as the pending preview request
(source line 479 passes `self.Discarder` unchanged), not a fresh cancel
token. -/
theorem c6_applyData_same_token_counterexample :
    tileC6.ApplyData 3 =
      some ({ tileC6 with Texture0 := some 3, CurrentLOD := 0 },
            [Ev.enq tileC6.id tileC6.W tileC6.H tileC6.What tileC6.Discarder])
    ∧ tileC6.Discarder = 5 := by
  constructor
  · rfl
  · rfl

/-- C6 (amended): when a tile in the Empty LOD state receives a completion
(the preview pass), `ApplyData` installs the buffer as the preview texture,
sets the LOD to Preview, and immediately enqueues a second, full-resolution
(`W × H`) request carrying the same cancel token as the preview request,
keeping the pending flag set. -/
theorem c6_applyData_preview_escalates (t : Tile) (data : Nat)
    (hempty : t.CurrentLOD = -1) :
    t.ApplyData data =
      some ({ t with Texture0 := some data, CurrentLOD := 0 },
            [Ev.enq t.id t.W t.H t.What t.Discarder]) ∧
    ({ t with Texture0 := some data, CurrentLOD := 0 } : Tile).Enqueued = t.Enqueued := by
  constructor
  · unfold Tile.ApplyData
    rw [if_pos hempty]
  · rfl

/-- Witness for C6 (amended) at the concrete tile `tileC6`, whose pending
flag is set and stays set. -/
theorem c6_applyData_preview_escalates_witness :
    tileC6.CurrentLOD = -1 ∧
    (tileC6.ApplyData 7 =
      some ({ tileC6 with Texture0 := some 7, CurrentLOD := 0 },
            [Ev.enq tileC6.id tileC6.W tileC6.H tileC6.What tileC6.Discarder]) ∧
    ({ tileC6 with Texture0 := some 7, CurrentLOD := 0 } : Tile).Enqueued =
      tileC6.Enqueued) :=
  ⟨by decide, c6_applyData_preview_escalates tileC6 7 (by decide)⟩

/-- One entry of `MandelbrotQueue` (source lines 227-230): its `cancelled`
flag records whether the cancel token of the entry has been set (i.e. whether
a value is waiting in its `Discarder` channel) by the time the entry reaches
the queue front. -/
structure QElem where
  eid : Nat
  cancelled : Bool
  deriving DecidableEq, Repr

/-- The dispatch loop of `MandelbrotQueue.Update` (source lines 274-290)
together with `FreeService` (lines 253-265): while the queue is non-empty and
an idle service exists, pop the front entry; if its cancel token is already
set, consume the token and drop the entry without dispatching (the idle
worker is not consumed, line 280-282); otherwise dispatch the entry to the
idle service.  Input `free` is the number of idle services; the result is
(dispatch sequence, remaining queue). -/
def queueDispatch : List QElem → Nat → List QElem × List QElem
  | [], _ => ([], [])
  | e :: es, 0 => ([], e :: es)
  | e :: es, free + 1 =>
      if e.cancelled then
        queueDispatch es (free + 1)
      else
        let rest := queueDispatch es free
        (e :: rest.1, rest.2)

/-- Several successive scheduling ticks: `frees` lists, tick by tick, how
many idle workers are available; dispatches of all ticks are concatenated. -/
def queueTicks : List Nat → List QElem → List QElem × List QElem
  | [], es => ([], es)
  | f :: fs, es =>
      let t := queueDispatch es f
      let rest := queueTicks fs t.2
      (t.1 ++ rest.1, rest.2)

theorem queueDispatch_eq_filter_take (es : List QElem) (free : Nat) :
    (queueDispatch es free).1 = (es.filter (fun e => !e.cancelled)).take free := by
  induction es generalizing free with
  | nil => cases free <;> rfl
  | cons e es ih =>
      cases free with
      | zero =>
          rcases h : e.cancelled with _ | _ <;> simp [queueDispatch, h, List.filter]
      | succ f =>
          rcases h : e.cancelled with _ | _
          · simp [queueDispatch, h, ih f]
          · simp [queueDispatch, h, ih (f + 1)]

theorem queueDispatch_uncancelled_split (es : List QElem) (free : Nat)
    (h : ∀ e ∈ es, e.cancelled = false) :
    queueDispatch es free = (es.take free, es.drop free) := by
  induction es generalizing free with
  | nil => cases free <;> rfl
  | cons e es ih =>
      cases free with
      | zero => rfl
      | succ f =>
          have he : e.cancelled = false := h e (by simp)
          have hrest : ∀ x ∈ es, x.cancelled = false := fun x hx => h x (by simp [hx])
          simp [queueDispatch, he, ih f hrest]

theorem queueTicks_all_uncancelled (frees : List Nat) (es : List QElem)
    (h : ∀ e ∈ es, e.cancelled = false) (hfree : es.length ≤ frees.sum) :
    (queueTicks frees es).1 = es := by
  induction frees generalizing es with
  | nil =>
      cases es with
      | nil => rfl
      | cons e es => simp at hfree
  | cons f fs ih =>
      rw [queueTicks, queueDispatch_uncancelled_split es f h]
      have hdrop : ∀ x ∈ es.drop f, x.cancelled = false :=
        fun x hx => h x (List.mem_of_mem_drop hx)
      have hlen : (es.drop f).length ≤ fs.sum := by
        rw [List.length_drop]
        simp only [List.sum_cons] at hfree
        omega
      simp only []
      rw [ih (es.drop f) hdrop hlen, List.take_append_drop]

/-- C3: the dispatch sequence of one tick is exactly the first `free`
non-cancelled entries of the queue in arrival order (so an entry whose cancel
token is set when it reaches the front is dropped without being dispatched
and without consuming an idle worker), and, for a sequence of entries whose
tokens are never set, given enough idle workers becoming available over
successive ticks, the dispatch order is exactly the enqueue order
`e1, ..., eN`. -/
theorem c3_queue_fifo_dispatch (es : List QElem) (free : Nat) (frees : List Nat) :
    (queueDispatch es free).1 = (es.filter (fun e => !e.cancelled)).take free
    ∧ ((∀ e ∈ es, e.cancelled = false) → es.length ≤ frees.sum →
        (queueTicks frees es).1 = es) :=
  ⟨queueDispatch_eq_filter_take es free,
   fun h hfree => queueTicks_all_uncancelled frees es h hfree⟩

/-- Witness for C3: three never-cancelled entries and a cancelled one at the
front of a later tick; over ticks with 2 and then 2 idle workers the three
live entries dispatch in order and the cancelled entry is dropped. -/
theorem c3_queue_fifo_dispatch_witness :
    (queueDispatch [⟨1, false⟩, ⟨2, true⟩, ⟨3, false⟩] 2).1 =
      ([⟨1, false⟩, ⟨2, true⟩, ⟨3, false⟩].filter (fun e => !e.cancelled)).take 2
    ∧ ((∀ e ∈ ([⟨1, false⟩, ⟨2, false⟩, ⟨3, false⟩] : List QElem), e.cancelled = false) →
        ([⟨1, false⟩, ⟨2, false⟩, ⟨3, false⟩] : List QElem).length ≤ [2, 2].sum →
        (queueTicks [2, 2] [⟨1, false⟩, ⟨2, false⟩, ⟨3, false⟩]).1 =
          [⟨1, false⟩, ⟨2, false⟩, ⟨3, false⟩])
    ∧ (queueTicks [2, 2] [⟨1, false⟩, ⟨2, false⟩, ⟨3, false⟩]).1 =
        [⟨1, false⟩, ⟨2, false⟩, ⟨3, false⟩] :=
  ⟨(c3_queue_fifo_dispatch [⟨1, false⟩, ⟨2, true⟩, ⟨3, false⟩] 2 [2, 2]).1,
   (c3_queue_fifo_dispatch [⟨1, false⟩, ⟨2, false⟩, ⟨3, false⟩] 2 [2, 2]).2,
   (c3_queue_fifo_dispatch [⟨1, false⟩, ⟨2, false⟩, ⟨3, false⟩] 2 [2, 2]).2
     (by decide) (by decide)⟩

/-- Position of one `MandelbrotRequest` in its life cycle.
`queued`: sitting in `MandelbrotQueue.Queue`; `running n`: being computed by
`mandelbrotProcessRequest` with `n` scanline iterations (compute row, then
poll the `Discarder` channel, lines 142-160) still to go; `outRes d`: the
result (`none` models the `nil` of a discard, line 158) sits in the service
output channel; `dropped`: removed at the queue front because the token was
set (lines 280-282); `delivered d`: consumed by `MandelbrotService.Done`
(lines 207-217), where `delivered (some b)` means the buffer was handed to
`Tile.ApplyData` by `MandelbrotQueue.Update` (lines 268-273). -/
inductive RPhase where
  | queued
  | running (rows : Nat)
  | outRes (d : Option Unit)
  | dropped
  | delivered (d : Option Unit)
  deriving DecidableEq, Repr

/-- State of one request: its phase, whether a value currently sits in its
buffered `Discarder` channel (`token`), and the history fact that the token
was set at some point (`cancelled`, a ghost flag used to state C2). -/
structure RState where
  phase : RPhase
  token : Bool
  cancelled : Bool
  deriving DecidableEq, Repr

/-- Interleaved small-step semantics of one request shared between the main
thread (cancel / dispatch / poll) and its worker goroutine (row steps).

* `cancel`: `Tile.Reset` or `Tile.Request` sends `true` into the buffered
  `Discarder` channel (source lines 456 and 464); the channel has capacity
  one and the program only sends while it is empty.
* `dispatchOk` / `dispatchDrop`: the queue front pop of
  `MandelbrotQueue.Update` (lines 277-283); a set token is consumed and the
  entry dropped without dispatch, otherwise the request starts running with
  some number of scanlines to go.
* `rowCancel` / `rowOk` / `rowLast`: one iteration of the scanline loop of
  `mandelbrotProcessRequest` (lines 142-160): after computing a row the
  worker polls the channel non-blockingly; a set token is consumed and `nil`
  is returned, after the final row the full buffer is returned.
* `rowZero`: a request of height zero returns its (empty) buffer without
  ever polling (the loop body never runs).
* `doneNil` / `doneDrop` / `doneOk`: `MandelbrotService.Done`
  (lines 207-217): a `nil` result is reported as failure; a non-nil result
  is dropped if a final non-blocking poll finds the token set (consuming
  it), and otherwise handed, via `Update`, to `Tile.ApplyData`. -/
inductive RStep : RState → RState → Prop where
  | cancel (p : RPhase) (c : Bool) : RStep ⟨p, false, c⟩ ⟨p, true, true⟩
  | dispatchOk (rows : Nat) (c : Bool) :
      RStep ⟨.queued, false, c⟩ ⟨.running rows, false, c⟩
  | dispatchDrop (c : Bool) : RStep ⟨.queued, true, c⟩ ⟨.dropped, false, c⟩
  | rowCancel (n : Nat) (c : Bool) :
      RStep ⟨.running (n + 1), true, c⟩ ⟨.outRes none, false, c⟩
  | rowOk (n : Nat) (c : Bool) :
      RStep ⟨.running (n + 2), false, c⟩ ⟨.running (n + 1), false, c⟩
  | rowLast (c : Bool) : RStep ⟨.running 1, false, c⟩ ⟨.outRes (some ()), false, c⟩
  | rowZero (t : Bool) (c : Bool) : RStep ⟨.running 0, t, c⟩ ⟨.outRes (some ()), t, c⟩
  | doneNil (t : Bool) (c : Bool) : RStep ⟨.outRes none, t, c⟩ ⟨.delivered none, t, c⟩
  | doneDrop (c : Bool) :
      RStep ⟨.outRes (some ()), true, c⟩ ⟨.delivered none, false, c⟩
  | doneOk (c : Bool) :
      RStep ⟨.outRes (some ()), false, c⟩ ⟨.delivered (some ()), false, c⟩

/-- A freshly enqueued request: in the queue, token empty, never cancelled. -/
def rInit : RState := ⟨.queued, false, false⟩

/-- Request states reachable from a fresh enqueue. -/
inductive RReach : RState → Prop where
  | init : RReach rInit
  | step {s s' : RState} : RReach s → RStep s s' → RReach s'

/-- Safety set: phases from which a completed buffer can no longer be
delivered. -/
def rDoomed (p : RPhase) : Prop :=
  p = .dropped ∨ p = .outRes none ∨ p = .delivered none

/-- Global invariant: once the ghost flag is set, either the token is still
in the channel or the request is beyond delivering a buffer (the only way to
consume the token is to discard). -/
theorem rReach_invariant {s : RState} (h : RReach s) :
    s.cancelled = true → s.token = true ∨ rDoomed s.phase ∨
      s.phase = .delivered (some ()) := by
  induction h with
  | init => intro hc; cases hc
  | step _ hs ih =>
      cases hs with
      | cancel p c => intro _; left; rfl
      | dispatchOk rows c =>
          intro hc
          rcases ih hc with h | h | h
          · cases h
          · rcases h with h | h | h <;> cases h
          · cases h
      | dispatchDrop c => intro _; right; left; left; rfl
      | rowCancel n c => intro _; right; left; right; left; rfl
      | rowOk n c =>
          intro hc
          rcases ih hc with h | h | h
          · cases h
          · rcases h with h | h | h <;> cases h
          · cases h
      | rowLast c =>
          intro hc
          rcases ih hc with h | h | h
          · cases h
          · rcases h with h | h | h <;> cases h
          · cases h
      | rowZero t c =>
          intro hc
          rcases ih hc with h | h | h
          · left; exact h
          · rcases h with h | h | h <;> cases h
          · cases h
      | doneNil t c =>
          intro _; right; left; right; right; rfl
      | doneDrop c => intro _; right; left; right; right; rfl
      | doneOk c =>
          intro hc
          rcases ih hc with h | h | h
          · cases h
          · rcases h with h | h | h <;> cases h
          · cases h

/-- Inductive safety predicate for C2: cancelled, no buffer delivered yet,
and the token is either still in the channel or already consumed by a
discarding reader. -/
def rSafe (s : RState) : Prop :=
  s.cancelled = true ∧ s.phase ≠ .delivered (some ()) ∧
    (s.token = true ∨ rDoomed s.phase)

theorem rSafe_step {s s' : RState} (hq : rSafe s) (hs : RStep s s') : rSafe s' := by
  obtain ⟨hc, hnd, ht⟩ := hq
  cases hs with
  | cancel p c =>
      exact ⟨rfl, hnd, Or.inl rfl⟩
  | dispatchOk rows c =>
      rcases ht with h | h
      · cases h
      · rcases h with h | h | h <;> cases h
  | dispatchDrop c =>
      exact ⟨hc, by simp, Or.inr (Or.inl rfl)⟩
  | rowCancel n c =>
      exact ⟨hc, by simp, Or.inr (Or.inr (Or.inl rfl))⟩
  | rowOk n c =>
      rcases ht with h | h
      · cases h
      · rcases h with h | h | h <;> cases h
  | rowLast c =>
      rcases ht with h | h
      · cases h
      · rcases h with h | h | h <;> cases h
  | rowZero t c =>
      rcases ht with h | h
      · exact ⟨hc, by simp, Or.inl h⟩
      · rcases h with h | h | h <;> cases h
  | doneNil t c =>
      exact ⟨hc, by simp, Or.inr (Or.inr (Or.inr rfl))⟩
  | doneDrop c =>
      exact ⟨hc, by simp, Or.inr (Or.inr (Or.inr rfl))⟩
  | doneOk c =>
      rcases ht with h | h
      · cases h
      · rcases h with h | h | h <;> cases h

theorem rSafe_steps {s s' : RState} (hq : rSafe s)
    (hs : Relation.ReflTransGen RStep s s') : rSafe s' := by
  induction hs with
  | refl => exact hq
  | tail _ hstep ih => exact rSafe_step ih hstep

/-- C2: once the cancel token of a request has been set, no completed buffer
for that request is ever applied to a tile.  Formally: from any reachable
state of the request whose ghost flag `cancelled` is set and where no buffer
has been delivered, no interleaving of further worker steps, queue steps and
`Done` polls can ever reach the `delivered (some b)` phase (the phase in
which `MandelbrotQueue.Update` hands a buffer to `Tile.ApplyData`); every
poll observes only a discard (`delivered none`) or nothing. -/
theorem c2_no_completion_after_cancel (s s' : RState)
    (hreach : RReach s) (hc : s.cancelled = true)
    (hnd : s.phase ≠ .delivered (some ()))
    (hsteps : Relation.ReflTransGen RStep s s') :
    s'.phase ≠ .delivered (some ()) := by
  have hq : rSafe s := by
    refine ⟨hc, hnd, ?_⟩
    rcases rReach_invariant hreach hc with h | h | h
    · exact Or.inl h
    · exact Or.inr h
    · exact absurd h hnd
  exact (rSafe_steps hq hsteps).2.1

/-- Witness for C2: a request cancelled while its worker has one scanline to
go is reachable; the worker consumes the token at its next poll and returns
`nil`, and the delivered-buffer phase is never reached. -/
theorem c2_no_completion_after_cancel_witness :
    RReach ⟨.running 1, true, true⟩ ∧
    (⟨.running 1, true, true⟩ : RState).cancelled = true ∧
    (⟨.running 1, true, true⟩ : RState).phase ≠ .delivered (some ()) ∧
    Relation.ReflTransGen RStep ⟨.running 1, true, true⟩ ⟨.outRes none, false, true⟩ ∧
    (⟨.outRes none, false, true⟩ : RState).phase ≠ .delivered (some ()) := by
  have h1 : RReach ⟨.running 1, true, true⟩ :=
    RReach.step (RReach.step RReach.init (RStep.dispatchOk 1 false))
      (RStep.cancel (.running 1) false)
  have h4 : Relation.ReflTransGen RStep ⟨.running 1, true, true⟩
      ⟨.outRes none, false, true⟩ :=
    Relation.ReflTransGen.single (RStep.rowCancel 0 true)
  exact ⟨h1, rfl, by simp, h4,
    c2_no_completion_after_cancel ⟨.running 1, true, true⟩ ⟨.outRes none, false, true⟩
      h1 rfl (by simp) h4⟩

/-- Source lines 515-522 (`TileManager`): `arr` models the backing array of
the `Tiles` slice (whose capacity never changes after `NewTileManager`), and
`len` the current slice length; `arr.length` is the Go `cap(self.Tiles)`. -/
structure TileManager where
  arr : List Tile
  len : Nat
  LastWhat : Rect
  W : ℤ
  H : ℤ
  Div : ℤ
  TilePW : ℤ
  TilePH : ℤ
  deriving DecidableEq, Repr

/-- Source lines 524-539 (`NewTileManager`): allocate `(Div+1) * (Div+1)`
distinct tiles of size `(w/Div) × (h/Div)` with quarter-size previews, then
reslice to length `0`.  `Int.tdiv` is Go integer division (truncation). -/
def NewTileManager (w h div : ℤ) : TileManager :=
  let tilePW := w.tdiv div
  let tilePH := h.tdiv div
  let sw := tilePW.tdiv 4
  let sh := tilePH.tdiv 4
  { arr := (List.range ((div + 1) * (div + 1)).toNat).map
      (fun n => NewTile tilePW tilePH sw sh n)
    len := 0
    LastWhat := ⟨⟨0, 1⟩, ⟨0, 1⟩, ⟨0, 1⟩, ⟨0, 1⟩⟩
    W := w
    H := h
    Div := div
    TilePW := tilePW
    TilePH := tilePH }

/-- The list `[a, a+1, ..., b]` of Go loop counters `for v := a; v <= b; v++`. -/
def rangeInt (a b : ℤ) : List ℤ :=
  (List.range (b + 1 - a).toNat).map (fun (k : ℕ) => a + (k : ℤ))

/-- Cell coordinates visited by the nested loops of `ZoomRequest`
(source lines 574-586) and `MoveRequest` (lines 639-660): `y` outer,
`x` inner. -/
def cellList (tx1 ty1 tx2 ty2 : ℤ) : List (ℤ × ℤ) :=
  (rangeInt ty1 ty2).flatMap (fun y => (rangeInt tx1 tx2).map (fun x => (x, y)))

/-- The tile region of grid cell `(x, y)`: source lines 576-580. -/
def cellRect (tilew tileh : F64) (x y : ℤ) : Rect :=
  { X := ((F64.ofInt x).mul tilew).add negOnePointFive
    Y := ((F64.ofInt y).mul tileh).add negOnePointFive
    W := tilew
    H := tileh }

/-- The request loop of `ZoomRequest` (source lines 573-586): walk the grid
cells, requesting tile `arr[i]` for the `i`-th cell (`i` starts at `0` and
increments per cell); `px`, `py` are the screen placement computed on lines
581-582.  Returns the updated array, the next fresh channel number and the
events. -/
def zoomRequestLoop (tilew tileh pixw pixh : F64) (what : Rect) :
    List (ℤ × ℤ) → List Tile → Nat → Nat → List Tile × Nat × List Ev
  | [], arr, _, ctr => (arr, ctr, [])
  | (x, y) :: cells, arr, i, ctr =>
      let r := cellRect tilew tileh x y
      let px := goInt32 ((r.X.sub what.X).div pixw)
      let py := goInt32 ((r.Y.sub what.Y).div pixh)
      let t := arr.getD i default
      let req := t.Request px py r ctr
      let rest := zoomRequestLoop tilew tileh pixw pixh what cells
        (arr.set i req.1) (i + 1) req.2.2
      (rest.1, rest.2.1, req.2.1 ++ rest.2.2)

/-- Result of `TileManager.ZoomRequest`: `ok` carries the new manager state,
the final value of the caller's `what` variable (the function receives
`*Rect` and may overwrite it, line 560), the next fresh channel number and
the events; `panicked` models the `panic` of line 567 (and the slice-bounds
panic Go raises on line 571 for a negative length); `nofuel` is exhaustion
of the modelling fuel that bounds the self-recursion of line 561. -/
inductive ZRes where
  | ok (tm : TileManager) (what : Rect) (ctr : Nat) (evs : List Ev)
  | panicked
  | nofuel
  deriving DecidableEq, Repr

/-- Source line 546: the tile width `what.W / float64(Div)`. -/
def zoomTileW (div : ℤ) (what : Rect) : F64 := what.W.div (F64.ofInt div)

/-- Source line 547: the tile height `what.H / float64(Div)`. -/
def zoomTileH (div : ℤ) (what : Rect) : F64 := what.H.div (F64.ofInt div)

/-- Source lines 551, 554 (also 622, 625): `tx1 = int(ox / tilew)`. -/
def zoomTx1 (div : ℤ) (what : Rect) : ℤ :=
  goInt32 ((what.X.sub negOnePointFive).div (zoomTileW div what))

/-- Source lines 552, 555 (also 623, 626): `ty1 = int(oy / tileh)`. -/
def zoomTy1 (div : ℤ) (what : Rect) : ℤ :=
  goInt32 ((what.Y.sub negOnePointFive).div (zoomTileH div what))

/-- Source line 556 (also 627): `tx2 = int((ox + what.W) / tilew)`. -/
def zoomTx2 (div : ℤ) (what : Rect) : ℤ :=
  goInt32 (((what.X.sub negOnePointFive).add what.W).div (zoomTileW div what))

/-- Source line 557 (also 628): `ty2 = int((oy + what.H) / tileh)`. -/
def zoomTy2 (div : ℤ) (what : Rect) : ℤ :=
  goInt32 (((what.Y.sub negOnePointFive).add what.H).div (zoomTileH div what))

/-- Source line 565 (also 630): `total = (tx2+1 - tx1) * (ty2+1 - ty1)`. -/
def zoomTotal (div : ℤ) (what : Rect) : ℤ :=
  (zoomTx2 div what + 1 - zoomTx1 div what) * (zoomTy2 div what + 1 - zoomTy1 div what)

/-- Source lines 541-587 (`TileManager.ZoomRequest`): empty the tile list,
compute the grid index range of the viewport, fall back to the initial
rectangle when the first index conversion overflowed (lines 558-563), panic
when the grid needs more tiles than the backing array holds (lines 565-568),
otherwise reslice and request every grid cell on the first `total` tiles of
the backing array. -/
def TileManager.ZoomRequest : Nat → TileManager → Rect → Nat → ZRes
  | 0, _, _, _ => .nofuel
  | fuel + 1, tm, what, ctr =>
      let tm1 : TileManager := { tm with LastWhat := what, len := 0 }
      let tilew := zoomTileW tm.Div what
      let tileh := zoomTileH tm.Div what
      let pixw := tilew.div (F64.ofInt tm.TilePW)
      let pixh := tileh.div (F64.ofInt tm.TilePH)
      if zoomTx1 tm.Div what = minInt32 then
        match TileManager.ZoomRequest fuel tm1 initialRect ctr with
        | .ok tm2 w2 ctr2 evs2 => .ok tm2 w2 ctr2 (Ev.tooClose :: evs2)
        | r => r
      else
        let total := zoomTotal tm.Div what
        if (tm1.arr.length : ℤ) < total then .panicked
        else if total < 0 then .panicked
        else
          let res := zoomRequestLoop tilew tileh pixw pixh what
            (cellList (zoomTx1 tm.Div what) (zoomTy1 tm.Div what)
              (zoomTx2 tm.Div what) (zoomTy2 tm.Div what)) tm1.arr 0 ctr
          .ok { tm1 with len := total.toNat, arr := res.1 } what res.2.1 res.2.2

instance : Inhabited TileManager :=
  ⟨⟨[], 0, ⟨⟨0, 1⟩, ⟨0, 1⟩, ⟨0, 1⟩, ⟨0, 1⟩⟩, 0, 0, 1, 1, 1⟩⟩

/-- Whether a `ZoomRequest` returned normally. -/
def ZRes.isOk (r : ZRes) : Bool := match r with | .ok _ _ _ _ => true | _ => false

/-- The manager state returned by a normal `ZoomRequest`. -/
def ZRes.tm (r : ZRes) : TileManager := match r with | .ok tm _ _ _ => tm | _ => default

/-- The final value of the caller's rectangle after a normal `ZoomRequest`. -/
def ZRes.what (r : ZRes) : Rect :=
  match r with | .ok _ w _ _ => w | _ => ⟨⟨0, 1⟩, ⟨0, 1⟩, ⟨0, 1⟩, ⟨0, 1⟩⟩

/-- The next fresh channel number after a normal `ZoomRequest`. -/
def ZRes.ctr (r : ZRes) : Nat := match r with | .ok _ _ c _ => c | _ => 0

/-- The events of a normal `ZoomRequest`. -/
def ZRes.evs (r : ZRes) : List Ev := match r with | .ok _ _ _ evs => evs | _ => []

/-- Number of `Queue.Enqueue` calls recorded in an event list, i.e. number of
requests issued. -/
def countEnq (evs : List Ev) : Nat :=
  evs.countP (fun ev => match ev with | Ev.enq _ _ _ _ _ => true | _ => false)

/-- Number of cancellations (sends on a `Discarder` channel) recorded for the
tile with identity `tid`. -/
def cancelCountFor (tid : Nat) (evs : List Ev) : Nat :=
  evs.countP (fun ev => match ev with | Ev.cancel t _ => t = tid | _ => false)

/-- Counterexample to C1 as stated: `ZoomRequest` on the viewport
`{-1.5, -1.5, 3, 3}` with tile divisor `8` issues requests on `81` tiles, not
`64`: the grid index ranges are `0..8` in both axes (the upper boundary index
`int(3 / 0.375) = 8` is included, line 556), a `9 × 9` grid — which is why
`NewTileManager` allocates `(Div+1) * (Div+1)` tiles (line 529). -/
theorem c1_zoom_tile_count_counterexample :
    countEnq (TileManager.ZoomRequest 1 (NewTileManager 512 512 8) initialRect 0).evs = 81
    ∧ countEnq (TileManager.ZoomRequest 1 (NewTileManager 512 512 8) initialRect 0).evs ≠ 64
    ∧ (TileManager.ZoomRequest 1 (NewTileManager 512 512 8) initialRect 0).tm.len ≠ 64 := by
  refine ⟨by decide, by decide, by decide⟩

/-- C1 (amended): calling `ZoomRequest` with viewport rectangle
`{-1.5, -1.5, 3, 3}` and tile divisor `8` issues requests on exactly `81`
tiles (the tile grid computed for that viewport has exactly `81` cells, a
`9 × 9` grid, because the upper boundary index `8` is included in both
axes). -/
theorem c1_zoom_tile_count :
    (TileManager.ZoomRequest 1 (NewTileManager 512 512 8) initialRect 0).isOk = true
    ∧ (TileManager.ZoomRequest 1 (NewTileManager 512 512 8) initialRect 0).tm.len = 81
    ∧ countEnq (TileManager.ZoomRequest 1 (NewTileManager 512 512 8) initialRect 0).evs = 81
    ∧ (TileManager.ZoomRequest 1 (NewTileManager 512 512 8) initialRect 0).evs.length = 81
    ∧ zoomTotal 8 initialRect = 81 := by
  refine ⟨by decide, by decide, by decide, by decide, by decide⟩

theorem getD_set_ne (l : List Tile) (i j : Nat) (a : Tile) (h : i ≠ j) :
    (l.set i a).getD j default = l.getD j default := by
  simp [List.getD_eq_getElem?_getD, List.getElem?_set_ne h]

theorem getD_set_self (l : List Tile) (i : Nat) (a : Tile) (h : i < l.length) :
    (l.set i a).getD i default = a := by
  simp [List.getD_eq_getElem?_getD, List.getElem?_set_eq_of_lt a h]

theorem zoomRequestLoop_length (tilew tileh pixw pixh : F64) (what : Rect)
    (cells : List (ℤ × ℤ)) (arr : List Tile) (i ctr : Nat) :
    (zoomRequestLoop tilew tileh pixw pixh what cells arr i ctr).1.length = arr.length := by
  induction cells generalizing arr i ctr with
  | nil => rfl
  | cons c cs ih =>
      obtain ⟨x, y⟩ := c
      rw [zoomRequestLoop]
      simp only []
      rw [ih]
      simp

/-- The tile identity an event refers to, if any. -/
def evTid : Ev → Option Nat
  | .cancel tid _ => some tid
  | .enq tid _ _ _ _ => some tid
  | _ => none

theorem Tile.request_evs_mem {t : Tile} {px py : ℤ} {r : Rect} {c : Nat} {ev : Ev}
    (h : ev ∈ (t.Request px py r c).2.1) :
    ev = Ev.cancel t.id t.Discarder ∨ ev = Ev.enq t.id t.SW t.SH r c := by
  unfold Tile.Request at h
  rcases he : t.Enqueued with _ | _ <;> simp [he] at h <;> tauto

/-- The identity of every event of the request loop is the identity of one of
the tiles at the slots the loop walks. -/
theorem zoomRequestLoop_event_ids (tilew tileh pixw pixh : F64) (what : Rect)
    (cells : List (ℤ × ℤ)) (arr : List Tile) (i ctr : Nat) (ev : Ev)
    (hmem : ev ∈ (zoomRequestLoop tilew tileh pixw pixh what cells arr i ctr).2.2)
    (tid : Nat) (htid : evTid ev = some tid) :
    ∃ m, i ≤ m ∧ m < i + cells.length ∧ (arr.getD m default).id = tid := by
  induction cells generalizing arr i ctr with
  | nil => simp [zoomRequestLoop] at hmem
  | cons c cs ih =>
      obtain ⟨x, y⟩ := c
      rw [zoomRequestLoop] at hmem
      simp only [List.mem_append] at hmem
      rcases hmem with h | h
      · rcases Tile.request_evs_mem h with he | he <;>
          · subst he
            simp only [evTid, Option.some_inj] at htid
            exact ⟨i, le_refl i, by simp, htid⟩
      · obtain ⟨m, hm1, hm2, hm3⟩ := ih _ _ _ h
        refine ⟨m, by omega, by simp; omega, ?_⟩
        rw [getD_set_ne _ _ _ _ (by omega)] at hm3
        exact hm3

/-- The `i + k`-th slot of the array receives a request for the `k`-th cell:
an enqueue event for that tile identity is emitted. -/
theorem zoomRequestLoop_enq (tilew tileh pixw pixh : F64) (what : Rect)
    (cells : List (ℤ × ℤ)) (arr : List Tile) (i ctr : Nat) (k : Nat)
    (hk : k < cells.length) :
    ∃ w h r d, Ev.enq (arr.getD (i + k) default).id w h r d ∈
      (zoomRequestLoop tilew tileh pixw pixh what cells arr i ctr).2.2 := by
  induction cells generalizing arr i ctr k with
  | nil => simp at hk
  | cons c cs ih =>
      obtain ⟨x, y⟩ := c
      rw [zoomRequestLoop]
      simp only []
      cases k with
      | zero =>
          refine ⟨(arr.getD i default).SW, (arr.getD i default).SH,
            cellRect tilew tileh x y, ctr, ?_⟩
          apply List.mem_append_left
          unfold Tile.Request
          rcases he : (arr.getD i default).Enqueued with _ | _ <;> simp [he]
      | succ k =>
          have hk2 : k < cs.length := by simpa using hk
          obtain ⟨w, h, r, d, hmem⟩ := ih (arr.set i _) (i + 1) _ k hk2
          rw [getD_set_ne _ _ _ _ (by omega)] at hmem
          have heq : i + 1 + k = i + (k + 1) := by omega
          rw [heq] at hmem
          exact ⟨w, h, r, d, List.mem_append_right _ hmem⟩

/-- A slot whose tile was enqueued when the loop reached it gets a cancel
event (the implicit cancellation inside `Tile.Request`, line 464). -/
theorem zoomRequestLoop_cancel (tilew tileh pixw pixh : F64) (what : Rect)
    (cells : List (ℤ × ℤ)) (arr : List Tile) (i ctr : Nat) (k : Nat)
    (hk : k < cells.length) (henq : (arr.getD (i + k) default).Enqueued = true) :
    Ev.cancel (arr.getD (i + k) default).id (arr.getD (i + k) default).Discarder ∈
      (zoomRequestLoop tilew tileh pixw pixh what cells arr i ctr).2.2 := by
  induction cells generalizing arr i ctr k with
  | nil => simp at hk
  | cons c cs ih =>
      obtain ⟨x, y⟩ := c
      rw [zoomRequestLoop]
      simp only []
      cases k with
      | zero =>
          apply List.mem_append_left
          unfold Tile.Request
          simp only [Nat.add_zero] at henq
          simp only [List.getD_eq_getElem?_getD] at henq ⊢
          simp [henq]
      | succ k =>
          have hk2 : k < cs.length := by simpa using hk
          apply List.mem_append_right
          set req := (arr.getD i default).Request
            (goInt32 (((cellRect tilew tileh x y).X.sub what.X).div pixw))
            (goInt32 (((cellRect tilew tileh x y).Y.sub what.Y).div pixh))
            (cellRect tilew tileh x y) ctr with hreq
          have heq : i + (k + 1) = i + 1 + k := by omega
          have henq2 : ((arr.set i req.1).getD (i + 1 + k) default).Enqueued = true := by
            rw [getD_set_ne _ _ _ _ (by omega), ← heq]
            exact henq
          have hmem := ih (arr.set i req.1) (i + 1) req.2.2 k hk2 henq2
          rw [getD_set_ne _ _ _ _ (by omega), ← heq] at hmem
          exact hmem

theorem rangeInt_length (a b : ℤ) : (rangeInt a b).length = (b + 1 - a).toNat := by
  rw [rangeInt, List.length_map, List.length_range]

theorem flatMap_pair_length (ys xs : List ℤ) :
    (ys.flatMap (fun y => xs.map (fun x => (x, y)))).length = ys.length * xs.length := by
  induction ys with
  | nil => simp
  | cons y ys ih =>
      rw [List.flatMap_cons, List.length_append, List.length_map, ih, List.length_cons,
        Nat.succ_mul, Nat.add_comm]

theorem cellList_length (tx1 ty1 tx2 ty2 : ℤ) :
    (cellList tx1 ty1 tx2 ty2).length = (ty2 + 1 - ty1).toNat * (tx2 + 1 - tx1).toNat := by
  rw [cellList, flatMap_pair_length, rangeInt_length, rangeInt_length]

theorem toNat_mul_of_nonneg {a b : ℤ} (ha : 0 ≤ a) (hb : 0 ≤ b) :
    (a * b).toNat = a.toNat * b.toNat := by
  obtain ⟨m, rfl⟩ := Int.eq_ofNat_of_zero_le ha
  obtain ⟨n, rfl⟩ := Int.eq_ofNat_of_zero_le hb
  rw [← Int.natCast_mul, Int.toNat_natCast, Int.toNat_natCast, Int.toNat_natCast]

theorem nodup_map_id_getD_ne {arr : List Tile} (h : (arr.map Tile.id).Nodup) {m k : Nat}
    (hm : m < arr.length) (hk : k < arr.length) (hne : m ≠ k) :
    (arr.getD m default).id ≠ (arr.getD k default).id := by
  rw [List.getD_eq_getElem arr default hm, List.getD_eq_getElem arr default hk]
  intro heq
  have h1 : (arr.map Tile.id).get ⟨m, by simpa using hm⟩ =
      (arr.map Tile.id).get ⟨k, by simpa using hk⟩ := by
    simp only [List.get_eq_getElem, List.getElem_map]
    exact heq
  have h2 := (List.Nodup.get_inj_iff h).1 h1
  exact hne (by simpa using h2)

set_option maxRecDepth 8000 in
/-- C7 (amended): every call to `zoomRequest` (that does not overflow and
whose grid fits the pre-allocated capacity) discards every existing tile by
emptying the tile list without calling `Reset`; a fresh request is issued on
each tile slot of the new grid, and any outstanding work on those reused
slots is cancelled by the request itself, but tile slots beyond the new
grid size receive no cancellation at all. -/
theorem c7_zoom_full_rerequest (fuel : Nat) (tm : TileManager) (what : Rect) (ctr : Nat)
    (htx : zoomTx1 tm.Div what ≠ minInt32)
    (hx : 0 ≤ zoomTx2 tm.Div what + 1 - zoomTx1 tm.Div what)
    (hy : 0 ≤ zoomTy2 tm.Div what + 1 - zoomTy1 tm.Div what)
    (hcap : zoomTotal tm.Div what ≤ (tm.arr.length : ℤ))
    (hnodup : (tm.arr.map Tile.id).Nodup) :
    ∃ tm2 ctr2 evs, TileManager.ZoomRequest (fuel + 1) tm what ctr = .ok tm2 what ctr2 evs
      ∧ tm2.len = (zoomTotal tm.Div what).toNat
      ∧ (∀ k, k < tm2.len → ∃ w h r d, Ev.enq (tm.arr.getD k default).id w h r d ∈ evs)
      ∧ (∀ k, k < tm2.len → (tm.arr.getD k default).Enqueued = true →
          Ev.cancel (tm.arr.getD k default).id (tm.arr.getD k default).Discarder ∈ evs)
      ∧ (∀ k, tm2.len ≤ k → k < tm.arr.length →
          ∀ d, Ev.cancel (tm.arr.getD k default).id d ∉ evs) := by
  have hcells : (cellList (zoomTx1 tm.Div what) (zoomTy1 tm.Div what)
      (zoomTx2 tm.Div what) (zoomTy2 tm.Div what)).length = (zoomTotal tm.Div what).toNat := by
    rw [cellList_length, zoomTotal, toNat_mul_of_nonneg hx hy, Nat.mul_comm]
  have htotnn : 0 ≤ zoomTotal tm.Div what := mul_nonneg hx hy
  rw [TileManager.ZoomRequest]
  simp only []
  rw [if_neg htx, if_neg (by exact not_lt.2 hcap), if_neg (by omega)]
  refine ⟨_, _, _, rfl, rfl, ?_, ?_, ?_⟩
  · intro k hk
    have hk2 : k < (zoomTotal tm.Div what).toNat := hk
    have := zoomRequestLoop_enq (zoomTileW tm.Div what) (zoomTileH tm.Div what)
      ((zoomTileW tm.Div what).div (F64.ofInt tm.TilePW))
      ((zoomTileH tm.Div what).div (F64.ofInt tm.TilePH)) what
      (cellList (zoomTx1 tm.Div what) (zoomTy1 tm.Div what)
        (zoomTx2 tm.Div what) (zoomTy2 tm.Div what)) tm.arr 0 ctr k
      (by rw [hcells]; exact hk2)
    simpa using this
  · intro k hk henq
    have hk2 : k < (zoomTotal tm.Div what).toNat := hk
    have := zoomRequestLoop_cancel (zoomTileW tm.Div what) (zoomTileH tm.Div what)
      ((zoomTileW tm.Div what).div (F64.ofInt tm.TilePW))
      ((zoomTileH tm.Div what).div (F64.ofInt tm.TilePH)) what
      (cellList (zoomTx1 tm.Div what) (zoomTy1 tm.Div what)
        (zoomTx2 tm.Div what) (zoomTy2 tm.Div what)) tm.arr 0 ctr k
      (by rw [hcells]; exact hk2) (by simpa using henq)
    simpa using this
  · intro k hk1 hk2 d hmem
    have hk1b : (zoomTotal tm.Div what).toNat ≤ k := hk1
    obtain ⟨m, _, hm2, hm3⟩ := zoomRequestLoop_event_ids (zoomTileW tm.Div what)
      (zoomTileH tm.Div what)
      ((zoomTileW tm.Div what).div (F64.ofInt tm.TilePW))
      ((zoomTileH tm.Div what).div (F64.ofInt tm.TilePH)) what
      (cellList (zoomTx1 tm.Div what) (zoomTy1 tm.Div what)
        (zoomTx2 tm.Div what) (zoomTy2 tm.Div what)) tm.arr 0 ctr
      (Ev.cancel (tm.arr.getD k default).id d) hmem (tm.arr.getD k default).id rfl
    rw [Nat.zero_add, hcells] at hm2
    have hmlen : m < tm.arr.length := by omega
    exact nodup_map_id_getD_ne hnodup hmlen hk2 (by omega) hm3

/-- Manager state after the startup zoom on the initial viewport with tile
divisor 2: nine tiles (a 3 × 3 grid), all with preview requests pending. -/
def tmAfterInitialZoom : TileManager :=
  (TileManager.ZoomRequest 1 (NewTileManager 512 512 2) initialRect 0).tm

/-- A zoom viewport shifted slightly left and up of the initial one
(exactly representable in float64): its grid is only 2 × 2 = 4 cells. -/
def zoomC7Rect : Rect := ⟨⟨-13, 8⟩, ⟨-13, 8⟩, ⟨3, 1⟩, ⟨3, 1⟩⟩

/-- The second zoom call of the C7 counterexample. -/
def zoomC7 : ZRes := TileManager.ZoomRequest 1 tmAfterInitialZoom zoomC7Rect 9

/-- Counterexample to C7 as stated: `ZoomRequest` never calls `Reset`.  It
discards the nine pending tiles of `tmAfterInitialZoom` by truncating the
slice (line 544) and only the four tiles reused for the new 2 × 2 grid are
cancelled, implicitly, inside `Tile.Request`; tile 8 was pending before the
call, receives no cancellation (no send on its `Discarder` channel occurs
anywhere in the call), and is still flagged enqueued afterwards, so its
in-flight or queued work keeps running (and its eventual completed buffer is
still applied to it by `Update`). -/
theorem c7_zoom_no_reset_counterexample :
    tmAfterInitialZoom.len = 9
    ∧ (tmAfterInitialZoom.arr.getD 8 default).Enqueued = true
    ∧ zoomC7.isOk = true
    ∧ zoomC7.tm.len = 4
    ∧ cancelCountFor (tmAfterInitialZoom.arr.getD 8 default).id zoomC7.evs = 0
    ∧ (zoomC7.tm.arr.getD 8 default).Enqueued = true := by
  refine ⟨by decide, by decide, by decide, by decide, by decide, by decide⟩

/-- Witness for C7 (amended) at the concrete state `tmAfterInitialZoom` and
viewport `zoomC7Rect` (hypotheses discharged by computation; the conclusion
is the amended theorem applied there). -/
theorem c7_zoom_full_rerequest_witness :
    (zoomTx1 tmAfterInitialZoom.Div zoomC7Rect ≠ minInt32
      ∧ 0 ≤ zoomTx2 tmAfterInitialZoom.Div zoomC7Rect + 1 -
          zoomTx1 tmAfterInitialZoom.Div zoomC7Rect
      ∧ 0 ≤ zoomTy2 tmAfterInitialZoom.Div zoomC7Rect + 1 -
          zoomTy1 tmAfterInitialZoom.Div zoomC7Rect
      ∧ zoomTotal tmAfterInitialZoom.Div zoomC7Rect ≤ (tmAfterInitialZoom.arr.length : ℤ)
      ∧ (tmAfterInitialZoom.arr.map Tile.id).Nodup)
    ∧ (∃ tm2 ctr2 evs,
        TileManager.ZoomRequest 1 tmAfterInitialZoom zoomC7Rect 9 = .ok tm2 zoomC7Rect ctr2 evs
        ∧ tm2.len = (zoomTotal tmAfterInitialZoom.Div zoomC7Rect).toNat
        ∧ (∀ k, k < tm2.len →
            ∃ w h r d, Ev.enq (tmAfterInitialZoom.arr.getD k default).id w h r d ∈ evs)
        ∧ (∀ k, k < tm2.len → (tmAfterInitialZoom.arr.getD k default).Enqueued = true →
            Ev.cancel (tmAfterInitialZoom.arr.getD k default).id
              (tmAfterInitialZoom.arr.getD k default).Discarder ∈ evs)
        ∧ (∀ k, tm2.len ≤ k → k < tmAfterInitialZoom.arr.length →
            ∀ d, Ev.cancel (tmAfterInitialZoom.arr.getD k default).id d ∉ evs)) :=
  ⟨⟨by decide, by decide, by decide, by decide, by decide⟩,
   c7_zoom_full_rerequest 0 tmAfterInitialZoom zoomC7Rect 9
     (by decide) (by decide) (by decide) (by decide) (by decide)⟩

theorem zoomTileW_initial (D : ℤ) (hD : 0 ≤ D) :
    zoomTileW D initialRect = ⟨3, D⟩ := by
  simp only [zoomTileW, initialRect, F64.ofInt, F64.div]
  rw [if_neg (by omega : ¬(1 * D < 0))]
  simp

theorem zoomIdx_initial (D : ℤ) (h1 : 1 ≤ D) (h2 : D ≤ 2147483647) :
    zoomTx1 D initialRect = 0 ∧ zoomTx2 D initialRect = D ∧
    zoomTy1 D initialRect = 0 ∧ zoomTy2 D initialRect = D := by
  have htw := zoomTileW_initial D (by omega)
  have hth : zoomTileH D initialRect = ⟨3, D⟩ := htw
  have hox : initialRect.X.sub negOnePointFive = ⟨0, 4⟩ := rfl
  have hox2 : (initialRect.X.sub negOnePointFive).add initialRect.W = ⟨12, 4⟩ := rfl
  have hd1 : F64.div ⟨0, 4⟩ ⟨3, D⟩ = ⟨0 * D, 12⟩ := by
    unfold F64.div
    simp only []
    rw [if_neg (by norm_num : ¬((4 : ℤ) * 3 < 0))]
    norm_num
  have hd2 : F64.div ⟨12, 4⟩ ⟨3, D⟩ = ⟨12 * D, 12⟩ := by
    unfold F64.div
    simp only []
    rw [if_neg (by norm_num : ¬((4 : ℤ) * 3 < 0))]
    norm_num
  have hg1 : goInt32 ⟨0 * D, 12⟩ = 0 := by
    unfold goInt32 F64.trunc
    simp only [zero_mul, Int.zero_tdiv]
    rw [if_neg (by norm_num)]
  have hg2 : goInt32 ⟨12 * D, 12⟩ = D := by
    unfold goInt32 F64.trunc
    simp only []
    rw [Int.mul_tdiv_cancel_left D (by norm_num : (12 : ℤ) ≠ 0)]
    rw [if_neg (by omega)]
  refine ⟨?_, ?_, ?_, ?_⟩
  · rw [zoomTx1, htw, hox, hd1, hg1]
  · rw [zoomTx2, htw, hox2, hd2, hg2]
  · rw [zoomTy1, hth]
    have : initialRect.Y.sub negOnePointFive = ⟨0, 4⟩ := rfl
    rw [this, hd1, hg1]
  · rw [zoomTy2, hth]
    have : (initialRect.Y.sub negOnePointFive).add initialRect.H = ⟨12, 4⟩ := rfl
    rw [this, hd2, hg2]

set_option maxRecDepth 8000 in
/-- An initial-rectangle zoom on a manager with the capacity allocated by
`NewTileManager` always succeeds and leaves the caller's rectangle
unchanged. -/
theorem zoom_initial_ok (fuel : Nat) (tm : TileManager) (ctr : Nat)
    (h1 : 1 ≤ tm.Div) (h2 : tm.Div ≤ 2147483647)
    (hcap : ((tm.Div + 1) * (tm.Div + 1)).toNat ≤ tm.arr.length) :
    ∃ tm2 ctr2 evs,
      TileManager.ZoomRequest (fuel + 1) tm initialRect ctr = .ok tm2 initialRect ctr2 evs := by
  obtain ⟨hx1, hx2, hy1, hy2⟩ := zoomIdx_initial tm.Div h1 h2
  have htot : zoomTotal tm.Div initialRect = (tm.Div + 1) * (tm.Div + 1) := by
    rw [zoomTotal, hx1, hx2, hy1, hy2]
    ring
  rw [TileManager.ZoomRequest]
  simp only []
  rw [if_neg (by rw [hx1]; unfold minInt32; omega)]
  rw [if_neg ?hcap2, if_neg ?hneg]
  case hcap2 =>
    rw [htot]
    have hnn : (0 : ℤ) ≤ (tm.Div + 1) * (tm.Div + 1) :=
      mul_nonneg (by omega) (by omega)
    have := Int.toNat_of_nonneg hnn
    push_neg
    omega
  case hneg =>
    rw [htot]
    have hnn : (0 : ℤ) ≤ (tm.Div + 1) * (tm.Div + 1) :=
      mul_nonneg (by omega) (by omega)
    omega
  exact ⟨_, _, _, rfl⟩

/-- C10: when a zoom is so deep that the tile-index computation overflows
the 32-bit int conversion (the computed first tile index `tx1` equals
`-2147483648`), `zoomRequest` does not panic: it prints the
`"Too close, sorry, zooming out..."` message, overwrites the caller's region
in place with the initial rectangle `{-1.5, -1.5, 3, 3}` (the returned
rectangle is `initialRect`) and re-runs itself on that initial region (the
rest of the run is exactly a `ZoomRequest` on `initialRect`). -/
theorem c10_zoom_overflow_falls_back (fuel : Nat) (tm : TileManager) (what : Rect) (ctr : Nat)
    (hoverflow : zoomTx1 tm.Div what = minInt32)
    (hdiv : 1 ≤ tm.Div) (hdiv2 : tm.Div ≤ 2147483647)
    (hcap : ((tm.Div + 1) * (tm.Div + 1)).toNat ≤ tm.arr.length) :
    ∃ tm2 ctr2 evs,
      TileManager.ZoomRequest (fuel + 2) tm what ctr =
        .ok tm2 initialRect ctr2 (Ev.tooClose :: evs)
      ∧ TileManager.ZoomRequest (fuel + 1) { tm with LastWhat := what, len := 0 }
          initialRect ctr = .ok tm2 initialRect ctr2 evs := by
  obtain ⟨tm2, ctr2, evs, hinner⟩ :=
    zoom_initial_ok fuel { tm with LastWhat := what, len := 0 } ctr hdiv hdiv2 hcap
  refine ⟨tm2, ctr2, evs, ?_, hinner⟩
  rw [TileManager.ZoomRequest]
  simp only []
  rw [if_pos hoverflow, hinner]

/-- A viewport so deep that `ox / tilew` exceeds 32 bits: `ox = 1`,
`W = 2 ^ -32` (exactly representable in float64). -/
def deepZoomRect : Rect := ⟨⟨-1, 2⟩, ⟨-1, 2⟩, ⟨1, 4294967296⟩, ⟨1, 4294967296⟩⟩

/-- Witness for C10 at a concrete deep zoom with tile divisor 2: the index
conversion overflows and the call falls back to the initial rectangle. -/
theorem c10_zoom_overflow_falls_back_witness :
    (zoomTx1 (NewTileManager 512 512 2).Div deepZoomRect = minInt32
      ∧ 1 ≤ (NewTileManager 512 512 2).Div
      ∧ (NewTileManager 512 512 2).Div ≤ 2147483647
      ∧ (((NewTileManager 512 512 2).Div + 1) * ((NewTileManager 512 512 2).Div + 1)).toNat ≤
          (NewTileManager 512 512 2).arr.length)
    ∧ (∃ tm2 ctr2 evs,
        TileManager.ZoomRequest 2 (NewTileManager 512 512 2) deepZoomRect 0 =
          .ok tm2 initialRect ctr2 (Ev.tooClose :: evs)
        ∧ TileManager.ZoomRequest 1
            { NewTileManager 512 512 2 with LastWhat := deepZoomRect, len := 0 }
            initialRect 0 = .ok tm2 initialRect ctr2 evs) :=
  ⟨⟨by decide, by decide, by decide, by decide⟩,
   c10_zoom_overflow_falls_back 0 (NewTileManager 512 512 2) deepZoomRect 0
     (by decide) (by decide) (by decide) (by decide)⟩

/-- Screen placement update for a tile that survives a pan: source lines
611-612.  Only the screen coordinates `X`, `Y` change. -/
def moveTile (what : Rect) (pixw pixh : F64) (t : Tile) : Tile :=
  { t with X := goInt32 ((t.What.X.sub what.X).div pixw)
           Y := goInt32 ((t.What.Y.sub what.Y).div pixh) }

/-- The reconciliation loop of `MoveRequest` (source lines 608-620), with
`d = len - i` passed as explicit structural fuel (each iteration either
advances `i` or shrinks `len`, so `d` decreases by exactly one).  Slot `i` is
examined: a tile overlapping the new viewport has its placement updated and
`i` advances (lines 610-612); otherwise the tile is `Reset`, swapped with the
last live slot, and the live region shrinks by one (lines 614-618, the freed
tile object stays in the backing array just past the live region). -/
def moveLoopD (what : Rect) (pixw pixh : F64) :
    List Tile → Nat → Nat → Nat → List Tile × Nat × List Ev
  | arr, len, _, 0 => (arr, len, [])
  | arr, len, i, d + 1 =>
      if i < len then
        let t := arr.getD i default
        if overlaps t.What what then
          moveLoopD what pixw pixh (arr.set i (moveTile what pixw pixh t)) len (i + 1) d
        else
          let reset := t.Reset
          let arr1 := arr.set i reset.1
          let last := len - 1
          let arr2 := (arr1.set i (arr1.getD last default)).set last (arr1.getD i default)
          let rest := moveLoopD what pixw pixh arr2 last i d
          (rest.1, rest.2.1, reset.2 ++ rest.2.2)
      else (arr, len, [])

/-- Entry point of the reconciliation loop: start at slot `0`. -/
def moveLoop (what : Rect) (pixw pixh : F64) (arr : List Tile) (len : Nat) :
    List Tile × Nat × List Ev :=
  moveLoopD what pixw pixh arr len 0 len

theorem moveLoopD_frame (what : Rect) (pixw pixh : F64) (arr : List Tile)
    (len i d : Nat) (hd : d = len - i) (hi : i ≤ len) :
    (moveLoopD what pixw pixh arr len i d).1.length = arr.length
    ∧ (moveLoopD what pixw pixh arr len i d).2.1 ≤ len
    ∧ i ≤ (moveLoopD what pixw pixh arr len i d).2.1 := by
  induction d generalizing arr len i with
  | zero =>
      have : i = len := by omega
      simp [moveLoopD, this]
  | succ d ih =>
      rw [moveLoopD]
      by_cases hlt : i < len
      · rw [if_pos hlt]
        by_cases hov : overlaps (arr.getD i default).What what = true
        · rw [if_pos hov]
          obtain ⟨ha, hb, hc⟩ := ih (arr.set i (moveTile what pixw pixh (arr.getD i default)))
            len (i + 1) (by omega) (by omega)
          refine ⟨?_, hb, by omega⟩
          rw [ha]
          simp
        · rw [if_neg hov]
          simp only []
          obtain ⟨ha, hb, hc⟩ := ih ((((arr.set i (arr.getD i default).Reset.1).set i
              ((arr.set i (arr.getD i default).Reset.1).getD (len - 1) default)).set (len - 1)
              ((arr.set i (arr.getD i default).Reset.1).getD i default))) (len - 1) i
            (by omega) (by omega)
          refine ⟨?_, by omega, by omega⟩
          rw [ha]
          simp
      · rw [if_neg hlt]
        exact ⟨rfl, by omega, by omega⟩

theorem moveLoopD_lowSlots (what : Rect) (pixw pixh : F64) (arr : List Tile)
    (len i d : Nat) (hd : d = len - i) (j : Nat) (hj : j < i) :
    (moveLoopD what pixw pixh arr len i d).1.getD j default = arr.getD j default := by
  induction d generalizing arr len i with
  | zero => rfl
  | succ d ih =>
      rw [moveLoopD]
      by_cases hlt : i < len
      · rw [if_pos hlt]
        by_cases hov : overlaps (arr.getD i default).What what = true
        · rw [if_pos hov]
          rw [ih _ len (i + 1) (by omega) (by omega)]
          exact getD_set_ne _ _ _ _ (by omega)
        · rw [if_neg hov]
          simp only []
          rw [ih _ (len - 1) i (by omega) hj]
          rw [getD_set_ne _ _ _ _ (by omega), getD_set_ne _ _ _ _ (by omega),
            getD_set_ne _ _ _ _ (by omega)]
      · rw [if_neg hlt]

theorem moveLoopD_tail (what : Rect) (pixw pixh : F64) (arr : List Tile)
    (len i d : Nat) (hd : d = len - i) (j : Nat) (hj : len ≤ j) :
    (moveLoopD what pixw pixh arr len i d).1.getD j default = arr.getD j default := by
  induction d generalizing arr len i with
  | zero => rfl
  | succ d ih =>
      rw [moveLoopD]
      by_cases hlt : i < len
      · rw [if_pos hlt]
        by_cases hov : overlaps (arr.getD i default).What what = true
        · rw [if_pos hov]
          rw [ih _ len (i + 1) (by omega) hj]
          exact getD_set_ne _ _ _ _ (by omega)
        · rw [if_neg hov]
          simp only []
          rw [ih _ (len - 1) i (by omega) (by omega)]
          rw [getD_set_ne _ _ _ _ (by omega), getD_set_ne _ _ _ _ (by omega),
            getD_set_ne _ _ _ _ (by omega)]
      · rw [if_neg hlt]

theorem swapped_getD_at_i (arr : List Tile) (rt : Tile) (i last : Nat)
    (hi : i < arr.length) (hne : i ≠ last) :
    (((arr.set i rt).set i ((arr.set i rt).getD last default)).set last
        ((arr.set i rt).getD i default)).getD i default = arr.getD last default := by
  rw [getD_set_ne _ _ _ _ (Ne.symm hne)]
  rw [getD_set_self _ _ _ (by simpa using hi)]
  rw [getD_set_ne _ _ _ _ hne]

theorem swapped_getD_other (arr : List Tile) (rt : Tile) (i last j : Nat)
    (hne1 : i ≠ j) (hne2 : last ≠ j) :
    (((arr.set i rt).set i ((arr.set i rt).getD last default)).set last
        ((arr.set i rt).getD i default)).getD j default = arr.getD j default := by
  rw [getD_set_ne _ _ _ _ hne2, getD_set_ne _ _ _ _ hne1, getD_set_ne _ _ _ _ hne1]

theorem swapped_length (arr : List Tile) (rt : Tile) (i last : Nat) :
    (((arr.set i rt).set i ((arr.set i rt).getD last default)).set last
        ((arr.set i rt).getD i default)).length = arr.length := by
  simp

theorem moveLoopD_survivor (what : Rect) (pixw pixh : F64) (arr : List Tile)
    (len i d : Nat) (hd : d = len - i) (hle : len ≤ arr.length) (j : Nat)
    (hij : i ≤ j) (hjl : j < len)
    (hov : overlaps (arr.getD j default).What what = true) :
    ∃ k, i ≤ k ∧ k < (moveLoopD what pixw pixh arr len i d).2.1 ∧
      (moveLoopD what pixw pixh arr len i d).1.getD k default =
        moveTile what pixw pixh (arr.getD j default) := by
  induction d generalizing arr len i j with
  | zero => omega
  | succ d ih =>
      have hlt : i < len := by omega
      rw [moveLoopD]
      rw [if_pos hlt]
      by_cases hovi : overlaps (arr.getD i default).What what = true
      · rw [if_pos hovi]
        by_cases hji : j = i
        · subst hji
          refine ⟨j, le_refl j, ?_, ?_⟩
          · have := (moveLoopD_frame what pixw pixh
              (arr.set j (moveTile what pixw pixh (arr.getD j default))) len (j + 1) d
              (by omega) (by omega)).2.2
            omega
          · rw [moveLoopD_lowSlots what pixw pixh _ len (j + 1) d (by omega) j (by omega)]
            exact getD_set_self arr j _ (by omega)
        · obtain ⟨k, hk1, hk2, hk3⟩ := ih (arr.set i (moveTile what pixw pixh
            (arr.getD i default))) len (i + 1) (by omega) (by simp; omega) j (by omega) hjl
            (by rw [getD_set_ne _ _ _ _ (by omega)]; exact hov)
          refine ⟨k, by omega, hk2, ?_⟩
          rw [hk3, getD_set_ne _ _ _ _ (by omega)]
      · rw [if_neg hovi]
        simp only []
        have hji : i ≠ j := by
          intro heq
          subst heq
          exact hovi hov
        have hilast : i < len - 1 := by omega
        by_cases hjlast : j = len - 1
        · have harr2i : (((arr.set i (arr.getD i default).Reset.1).set i
              ((arr.set i (arr.getD i default).Reset.1).getD (len - 1) default)).set (len - 1)
              ((arr.set i (arr.getD i default).Reset.1).getD i default)).getD i default =
              arr.getD j default := by
            rw [swapped_getD_at_i arr _ i (len - 1) (by omega) (by omega), hjlast]
          obtain ⟨k, hk1, hk2, hk3⟩ := ih (((arr.set i (arr.getD i default).Reset.1).set i ((arr.set i (arr.getD i default).Reset.1).getD (len - 1) default)).set (len - 1) ((arr.set i (arr.getD i default).Reset.1).getD i default)) (len - 1) i (by omega)
            (by rw [swapped_length]; omega) i (le_refl i) (by omega)
            (by rw [harr2i]; exact hov)
          exact ⟨k, hk1, hk2, by rw [hk3, harr2i]⟩
        · have hjlt : j < len - 1 := by omega
          have harr2j : (((arr.set i (arr.getD i default).Reset.1).set i
              ((arr.set i (arr.getD i default).Reset.1).getD (len - 1) default)).set (len - 1)
              ((arr.set i (arr.getD i default).Reset.1).getD i default)).getD j default =
              arr.getD j default :=
            swapped_getD_other arr _ i (len - 1) j (by omega) (by omega)
          obtain ⟨k, hk1, hk2, hk3⟩ := ih (((arr.set i (arr.getD i default).Reset.1).set i ((arr.set i (arr.getD i default).Reset.1).getD (len - 1) default)).set (len - 1) ((arr.set i (arr.getD i default).Reset.1).getD i default)) (len - 1) i (by omega)
            (by rw [swapped_length]; omega) j (by omega) (by omega)
            (by rw [harr2j]; exact hov)
          exact ⟨k, hk1, hk2, by rw [hk3, harr2j]⟩

theorem moveLoopD_events (what : Rect) (pixw pixh : F64) (arr : List Tile)
    (len i d : Nat) (hd : d = len - i) (hle : len ≤ arr.length) (ev : Ev)
    (hmem : ev ∈ (moveLoopD what pixw pixh arr len i d).2.2) :
    ∃ j, i ≤ j ∧ j < len ∧ overlaps (arr.getD j default).What what = false ∧
      ev = Ev.cancel (arr.getD j default).id (arr.getD j default).Discarder ∧
      (arr.getD j default).Enqueued = true := by
  induction d generalizing arr len i with
  | zero => simp [moveLoopD] at hmem
  | succ d ih =>
      rw [moveLoopD] at hmem
      by_cases hlt : i < len
      · rw [if_pos hlt] at hmem
        by_cases hovi : overlaps (arr.getD i default).What what = true
        · rw [if_pos hovi] at hmem
          obtain ⟨j, hj1, hj2, hj3, hj4, hj5⟩ := ih _ len (i + 1) (by omega)
            (by simp; omega) hmem
          rw [getD_set_ne _ _ _ _ (by omega)] at hj3 hj4 hj5
          exact ⟨j, by omega, hj2, hj3, hj4, hj5⟩
        · rw [if_neg hovi] at hmem
          simp only [List.mem_append] at hmem
          rcases hmem with hmem | hmem
          · refine ⟨i, le_refl i, hlt, by simpa using hovi, ?_⟩
            unfold Tile.Reset at hmem
            rcases he : (arr.getD i default).Enqueued with _ | _
            · rw [he] at hmem
              simp at hmem
            · rw [he] at hmem
              simp at hmem
              refine ⟨?_, rfl⟩
              rw [hmem]
              simp [List.getD_eq_getElem?_getD]
          · obtain ⟨j, hj1, hj2, hj3, hj4, hj5⟩ := ih _ (len - 1) i (by omega)
              (by rw [swapped_length]; omega) hmem
            by_cases hji : j = i
            · subst hji
              have hilast : j < len - 1 := by omega
              have harr2i := swapped_getD_at_i arr ((arr.getD j default).Reset.1) j (len - 1)
                (by omega) (by omega)
              rw [harr2i] at hj3 hj4 hj5
              exact ⟨len - 1, by omega, by omega, hj3, hj4, hj5⟩
            · have harr2j := swapped_getD_other arr ((arr.getD i default).Reset.1) i (len - 1) j
                (by omega) (by omega)
              rw [harr2j] at hj3 hj4 hj5
              exact ⟨j, by omega, by omega, hj3, hj4, hj5⟩
      · rw [if_neg hlt] at hmem
        simp at hmem

theorem map_set_tile (l : List Tile) (i : Nat) (a : Tile) :
    (l.set i a).map Tile.id = (l.map Tile.id).set i a.id := by
  induction l generalizing i with
  | nil => rfl
  | cons b tl ih =>
      cases i with
      | zero => rfl
      | succ n => simp [List.set, ih]

theorem getD_map_tile (l : List Tile) (n : Nat) :
    (l.map Tile.id).getD n 0 = (l.getD n default).id := by
  rw [List.getD_eq_getElem?_getD, List.getD_eq_getElem?_getD, List.getElem?_map]
  cases h : l[n]? with
  | none => rfl
  | some t => rfl

theorem set_getD_self_nat (l : List ℕ) (i : Nat) (hi : i < l.length) :
    l.set i (l.getD i 0) = l := by
  induction l generalizing i with
  | nil => rfl
  | cons a tl ih =>
      cases i with
      | zero => rfl
      | succ n =>
          rw [List.getD_cons_succ]
          show a :: tl.set n (tl.getD n 0) = a :: tl
          rw [ih n (by simpa using hi)]

theorem cons_set_perm (tl : List ℕ) (m : Nat) (a : Nat) (hm : m < tl.length) :
    (tl.getD m 0 :: tl.set m a).Perm (a :: tl) := by
  induction tl generalizing m with
  | nil => simp at hm
  | cons b tl ih =>
      cases m with
      | zero => exact List.Perm.swap a b tl
      | succ m =>
          have h1 : List.Perm (tl.getD m 0 :: b :: tl.set m a)
              (b :: tl.getD m 0 :: tl.set m a) :=
            List.Perm.swap b (tl.getD m 0) (tl.set m a)
          have h2 : List.Perm (b :: tl.getD m 0 :: tl.set m a) (b :: a :: tl) :=
            (ih m (by simpa using hm)).cons b
          have h3 : List.Perm (b :: a :: tl) (a :: b :: tl) := List.Perm.swap a b tl
          exact (h1.trans h2).trans h3

theorem set_swap_perm (l : List ℕ) (i j : Nat) (hi : i < l.length) (hj : j < l.length) :
    ((l.set i (l.getD j 0)).set j (l.getD i 0)).Perm l := by
  induction l generalizing i j with
  | nil => simp at hi
  | cons a tl ih =>
      cases i with
      | zero =>
          cases j with
          | zero => simp
          | succ m => simpa using cons_set_perm tl m a (by simpa using hj)
      | succ n =>
          cases j with
          | zero => simpa using cons_set_perm tl n a (by simpa using hi)
          | succ m => simpa using (ih n m (by simpa using hi) (by simpa using hj)).cons a

theorem Tile.reset_id (t : Tile) : t.Reset.1.id = t.id := by
  unfold Tile.Reset
  rcases h : t.Enqueued with _ | _ <;> simp [h]

theorem moveLoopD_perm (what : Rect) (pixw pixh : F64) (arr : List Tile)
    (len i d : Nat) (hd : d = len - i) (hle : len ≤ arr.length) :
    ((moveLoopD what pixw pixh arr len i d).1.map Tile.id).Perm (arr.map Tile.id) := by
  induction d generalizing arr len i with
  | zero => exact List.Perm.refl _
  | succ d ih =>
      rw [moveLoopD]
      by_cases hlt : i < len
      · rw [if_pos hlt]
        by_cases hovi : overlaps (arr.getD i default).What what = true
        · rw [if_pos hovi]
          have hmap : (arr.set i (moveTile what pixw pixh (arr.getD i default))).map Tile.id =
              arr.map Tile.id := by
            rw [map_set_tile]
            have : (moveTile what pixw pixh (arr.getD i default)).id =
                (arr.map Tile.id).getD i 0 := by
              rw [getD_map_tile]
              rfl
            rw [this, set_getD_self_nat _ _ (by simp; omega)]
          have := ih (arr.set i (moveTile what pixw pixh (arr.getD i default))) len (i + 1)
            (by omega) (by simp; omega)
          rw [hmap] at this
          exact this
        · rw [if_neg hovi]
          simp only []
          have harr1 : (arr.set i (arr.getD i default).Reset.1).map Tile.id =
              arr.map Tile.id := by
            rw [map_set_tile, Tile.reset_id]
            have : (arr.getD i default).id = (arr.map Tile.id).getD i 0 :=
              (getD_map_tile arr i).symm
            rw [this, set_getD_self_nat _ _ (by simp; omega)]
          have hswap : ((((arr.set i (arr.getD i default).Reset.1).set i
              ((arr.set i (arr.getD i default).Reset.1).getD (len - 1) default)).set (len - 1)
              ((arr.set i (arr.getD i default).Reset.1).getD i default)).map Tile.id).Perm
              (arr.map Tile.id) := by
            rw [map_set_tile, map_set_tile, ← getD_map_tile, ← getD_map_tile, harr1]
            exact set_swap_perm (arr.map Tile.id) i (len - 1)
              (by simp; omega) (by simp; omega)
          have hrec := ih (((arr.set i (arr.getD i default).Reset.1).set i
              ((arr.set i (arr.getD i default).Reset.1).getD (len - 1) default)).set (len - 1)
              ((arr.set i (arr.getD i default).Reset.1).getD i default)) (len - 1) i
            (by omega) (by rw [swapped_length]; omega)
          exact hrec.trans hswap
      · rw [if_neg hlt]

/-- The fill loop of `MoveRequest` (source lines 639-660): walk the grid
cells of the new viewport; a cell not covered by the previous viewport
(`!overlaps(r, LastWhat)`, line 646) is newly introduced and gets a request
on recycled slot `i` — unless `i` runs past the slice length `len2`, in
which case only the `"missing free tiles"` message is printed (lines
650-654).  `i` advances once per newly introduced cell (line 657). -/
def moveReqLoop (tilew tileh pixw pixh : F64) (what lastWhat : Rect) :
    List (ℤ × ℤ) → List Tile → Nat → Nat → Nat → List Tile × Nat × List Ev
  | [], arr, _, _, ctr => (arr, ctr, [])
  | (x, y) :: cells, arr, i, len2, ctr =>
      let r := cellRect tilew tileh x y
      if overlaps r lastWhat then
        moveReqLoop tilew tileh pixw pixh what lastWhat cells arr i len2 ctr
      else
        let px := goInt32 ((r.X.sub what.X).div pixw)
        let py := goInt32 ((r.Y.sub what.Y).div pixh)
        if len2 ≤ i then
          let rest := moveReqLoop tilew tileh pixw pixh what lastWhat cells arr (i + 1) len2 ctr
          (rest.1, rest.2.1, Ev.missingFree :: rest.2.2)
        else
          let t := arr.getD i default
          let req := t.Request px py r ctr
          let rest := moveReqLoop tilew tileh pixw pixh what lastWhat cells
            (arr.set i req.1) (i + 1) len2 req.2.2
          (rest.1, rest.2.1, req.2.1 ++ rest.2.2)

/-- Source line 605 (also 548): the horizontal size `pixw` of one fractal
pixel, `tilew / float64(TilePW)`. -/
def movePixW (tm : TileManager) (what : Rect) : F64 :=
  (zoomTileW tm.Div what).div (F64.ofInt tm.TilePW)

/-- Source line 606 (also 549): the vertical size `pixh` of one fractal
pixel, `tileh / float64(TilePH)`. -/
def movePixH (tm : TileManager) (what : Rect) : F64 :=
  (zoomTileH tm.Div what).div (F64.ofInt tm.TilePH)

/-- Source lines 600-662 (`TileManager.MoveRequest`): differential
reconciliation of the tile set against a moved viewport, then requests for
the newly introduced grid cells; `none` models the capacity panic of line
632 (and the slice-bounds panic of line 637 for a negative total). -/
def TileManager.MoveRequest (tm : TileManager) (what : Rect) (ctr : Nat) :
    Option (TileManager × Nat × List Ev) :=
  let tilew := zoomTileW tm.Div what
  let tileh := zoomTileH tm.Div what
  let pixw := movePixW tm what
  let pixh := movePixH tm what
  let phase1 := moveLoop what pixw pixh tm.arr tm.len
  let total := zoomTotal tm.Div what
  if (phase1.1.length : ℤ) < total then none
  else if total < 0 then none
  else
    let phase2 := moveReqLoop tilew tileh pixw pixh what tm.LastWhat
      (cellList (zoomTx1 tm.Div what) (zoomTy1 tm.Div what)
        (zoomTx2 tm.Div what) (zoomTy2 tm.Div what))
      phase1.1 phase1.2.1 total.toNat ctr
    some ({ tm with arr := phase2.1, len := total.toNat, LastWhat := what },
      phase2.2.1, phase1.2.2 ++ phase2.2.2)

theorem moveReqLoop_frozen (tilew tileh pixw pixh : F64) (what lastWhat : Rect)
    (cells : List (ℤ × ℤ)) (arr : List Tile) (i len2 ctr : Nat) (j : Nat)
    (hj : j < i ∨ len2 ≤ j) :
    (moveReqLoop tilew tileh pixw pixh what lastWhat cells arr i len2 ctr).1.getD j default =
      arr.getD j default := by
  induction cells generalizing arr i ctr with
  | nil => rfl
  | cons c cs ih =>
      obtain ⟨x, y⟩ := c
      rw [moveReqLoop]
      by_cases hov : overlaps (cellRect tilew tileh x y) lastWhat = true
      · rw [if_pos hov]
        exact ih arr i ctr hj
      · rw [if_neg hov]
        simp only []
        by_cases hfull : len2 ≤ i
        · rw [if_pos hfull]
          exact ih arr (i + 1) ctr (by omega)
        · rw [if_neg hfull]
          simp only []
          rw [ih _ (i + 1) _ (by omega)]
          exact getD_set_ne _ _ _ _ (by omega)

theorem moveReqLoop_event_ids (tilew tileh pixw pixh : F64) (what lastWhat : Rect)
    (cells : List (ℤ × ℤ)) (arr : List Tile) (i len2 ctr : Nat) (ev : Ev)
    (hmem : ev ∈ (moveReqLoop tilew tileh pixw pixh what lastWhat cells arr i len2 ctr).2.2)
    (tid : Nat) (htid : evTid ev = some tid) :
    ∃ m, i ≤ m ∧ m < len2 ∧ (arr.getD m default).id = tid := by
  induction cells generalizing arr i ctr with
  | nil => simp [moveReqLoop] at hmem
  | cons c cs ih =>
      obtain ⟨x, y⟩ := c
      rw [moveReqLoop] at hmem
      by_cases hov : overlaps (cellRect tilew tileh x y) lastWhat = true
      · rw [if_pos hov] at hmem
        exact ih arr i ctr hmem
      · rw [if_neg hov] at hmem
        simp only [] at hmem
        by_cases hfull : len2 ≤ i
        · rw [if_pos hfull] at hmem
          simp only [List.mem_cons] at hmem
          rcases hmem with hmem | hmem
          · rw [hmem] at htid
            simp [evTid] at htid
          · obtain ⟨m, hm1, hm2, hm3⟩ := ih arr (i + 1) ctr hmem
            exact ⟨m, by omega, hm2, hm3⟩
        · rw [if_neg hfull] at hmem
          simp only [List.mem_append] at hmem
          rcases hmem with hmem | hmem
          · rcases Tile.request_evs_mem hmem with he | he <;>
              · subst he
                simp only [evTid, Option.some_inj] at htid
                exact ⟨i, le_refl i, by omega, htid⟩
          · obtain ⟨m, hm1, hm2, hm3⟩ := ih _ (i + 1) _ hmem
            refine ⟨m, by omega, hm2, ?_⟩
            rw [getD_set_ne _ _ _ _ (by omega)] at hm3
            exact hm3


theorem moveReqLoop_length (tilew tileh pixw pixh : F64) (what lastWhat : Rect)
    (cells : List (ℤ × ℤ)) (arr : List Tile) (i len2 ctr : Nat) :
    (moveReqLoop tilew tileh pixw pixh what lastWhat cells arr i len2 ctr).1.length =
      arr.length := by
  induction cells generalizing arr i ctr with
  | nil => rfl
  | cons c cs ih =>
      obtain ⟨x, y⟩ := c
      rw [moveReqLoop]
      by_cases hov : overlaps (cellRect tilew tileh x y) lastWhat = true
      · rw [if_pos hov]
        exact ih arr i ctr
      · rw [if_neg hov]
        simp only []
        by_cases hfull : len2 ≤ i
        · rw [if_pos hfull]
          exact ih arr (i + 1) ctr
        · rw [if_neg hfull]
          simp only []
          rw [ih _ (i + 1) _]
          simp


/-- C5: for every `moveRequest` transition, every existing tile whose region
overlaps the new viewport is kept in the tile pool without any new request
being issued for it and without cancellation: only its screen position
fields `X`, `Y` are updated (to the placement of lines 611-612), and its LOD
state, textures, pending flag, cancel channel and region are unchanged. -/
theorem c5_move_keeps_overlapping_tiles (tm : TileManager) (what : Rect) (ctr : Nat)
    (hlen : tm.len ≤ tm.arr.length)
    (hnodup : (tm.arr.map Tile.id).Nodup)
    (j : Nat) (hj : j < tm.len)
    (hov : overlaps (tm.arr.getD j default).What what = true) :
    ∀ tm2 ctr2 evs, tm.MoveRequest what ctr = some (tm2, ctr2, evs) →
      (∃ k, k < tm2.arr.length ∧
        tm2.arr.getD k default =
          moveTile what (movePixW tm what) (movePixH tm what) (tm.arr.getD j default))
      ∧ (∀ t : Tile, ∀ pw ph : F64,
          (moveTile what pw ph t).CurrentLOD = t.CurrentLOD ∧
          (moveTile what pw ph t).What = t.What ∧
          (moveTile what pw ph t).Texture0 = t.Texture0 ∧
          (moveTile what pw ph t).Texture1 = t.Texture1 ∧
          (moveTile what pw ph t).Enqueued = t.Enqueued ∧
          (moveTile what pw ph t).Discarder = t.Discarder ∧
          (moveTile what pw ph t).id = t.id)
      ∧ (∀ d, Ev.cancel (tm.arr.getD j default).id d ∉ evs)
      ∧ (∀ w h r d, Ev.enq (tm.arr.getD j default).id w h r d ∉ evs) := by
  intro tm2 ctr2 evs heq
  rw [TileManager.MoveRequest] at heq
  simp only [] at heq
  by_cases hA : ((moveLoop what (movePixW tm what) (movePixH tm what) tm.arr
      tm.len).1.length : ℤ) < zoomTotal tm.Div what
  · rw [if_pos hA] at heq
    exact absurd heq (by simp)
  rw [if_neg hA] at heq
  by_cases hB : zoomTotal tm.Div what < 0
  · rw [if_pos hB] at heq
    exact absurd heq (by simp)
  rw [if_neg hB] at heq
  simp only [Option.some_inj, Prod.mk.injEq] at heq
  obtain ⟨htm2, hctr2, hevs⟩ := heq
  have hL1 : (moveLoop what (movePixW tm what) (movePixH tm what) tm.arr
      tm.len).1.length = tm.arr.length :=
    (moveLoopD_frame what (movePixW tm what) (movePixH tm what) tm.arr tm.len 0 tm.len
      rfl (by omega)).1
  have hL2 : (moveLoop what (movePixW tm what) (movePixH tm what) tm.arr tm.len).2.1 ≤
      tm.len :=
    (moveLoopD_frame what (movePixW tm what) (movePixH tm what) tm.arr tm.len 0 tm.len
      rfl (by omega)).2.1
  obtain ⟨k, hk0, hk1, hk2⟩ :
      ∃ k, 0 ≤ k ∧
        k < (moveLoop what (movePixW tm what) (movePixH tm what) tm.arr tm.len).2.1 ∧
        (moveLoop what (movePixW tm what) (movePixH tm what) tm.arr
            tm.len).1.getD k default =
          moveTile what (movePixW tm what) (movePixH tm what) (tm.arr.getD j default) :=
    moveLoopD_survivor what (movePixW tm what) (movePixH tm what) tm.arr tm.len 0 tm.len
      rfl hlen j (by omega) hj hov
  have hnodup1 : ((moveLoop what (movePixW tm what) (movePixH tm what) tm.arr
      tm.len).1.map Tile.id).Nodup :=
    (List.Perm.nodup_iff (moveLoopD_perm what (movePixW tm what) (movePixH tm what)
      tm.arr tm.len 0 tm.len rfl hlen)).2 hnodup
  refine ⟨?_, ?_, ?_, ?_⟩
  · refine ⟨k, ?_, ?_⟩
    · rw [← htm2]
      simp only []
      rw [moveReqLoop_length, hL1]
      omega
    · rw [← htm2]
      simp only []
      rw [moveReqLoop_frozen _ _ _ _ _ _ _ _ _ _ _ k (Or.inl hk1)]
      exact hk2
  · intro t pw ph
    exact ⟨rfl, rfl, rfl, rfl, rfl, rfl, rfl⟩
  · intro d hmem
    rw [← hevs] at hmem
    rcases List.mem_append.1 hmem with hmem1 | hmem2
    · obtain ⟨jr, hjr1, hjr2, hjr3, hjr4, hjr5⟩ : ∃ jr, 0 ≤ jr ∧ jr < tm.len ∧
          overlaps (tm.arr.getD jr default).What what = false ∧
          Ev.cancel (tm.arr.getD j default).id d =
            Ev.cancel (tm.arr.getD jr default).id (tm.arr.getD jr default).Discarder ∧
          (tm.arr.getD jr default).Enqueued = true :=
        moveLoopD_events what (movePixW tm what) (movePixH tm what) tm.arr tm.len 0 tm.len
          rfl hlen _ hmem1
      have hid : (tm.arr.getD jr default).id = (tm.arr.getD j default).id := by
        simp only [Ev.cancel.injEq] at hjr4
        exact hjr4.1.symm
      have hje : jr = j := by
        by_contra hne
        exact nodup_map_id_getD_ne hnodup (by omega) (by omega) hne hid
      rw [hje] at hjr3
      rw [hjr3] at hov
      exact absurd hov (by simp)
    · obtain ⟨m, hm1, hm2, hm3⟩ :
          ∃ m, (moveLoop what (movePixW tm what) (movePixH tm what) tm.arr
              tm.len).2.1 ≤ m ∧ m < (zoomTotal tm.Div what).toNat ∧
            ((moveLoop what (movePixW tm what) (movePixH tm what) tm.arr
                tm.len).1.getD m default).id = (tm.arr.getD j default).id :=
        moveReqLoop_event_ids _ _ _ _ _ _ _ _ _ _ _
          (Ev.cancel (tm.arr.getD j default).id d) hmem2 (tm.arr.getD j default).id rfl
      have hkid : ((moveLoop what (movePixW tm what) (movePixH tm what) tm.arr
          tm.len).1.getD k default).id = (tm.arr.getD j default).id := by
        rw [hk2]
        rfl
      have hne : k ≠ m := by omega
      refine nodup_map_id_getD_ne hnodup1 ?_ ?_ hne (hkid.trans hm3.symm)
      · rw [hL1]
        omega
      · rw [hL1]
        have : (zoomTotal tm.Div what).toNat ≤ tm.arr.length := by omega
        omega
  · intro w h r d hmem
    rw [← hevs] at hmem
    rcases List.mem_append.1 hmem with hmem1 | hmem2
    · obtain ⟨jr, hjr1, hjr2, hjr3, hjr4, hjr5⟩ :=
        moveLoopD_events what (movePixW tm what) (movePixH tm what) tm.arr tm.len 0 tm.len
          rfl hlen _ hmem1
      simp at hjr4
    · obtain ⟨m, hm1, hm2, hm3⟩ :
          ∃ m, (moveLoop what (movePixW tm what) (movePixH tm what) tm.arr
              tm.len).2.1 ≤ m ∧ m < (zoomTotal tm.Div what).toNat ∧
            ((moveLoop what (movePixW tm what) (movePixH tm what) tm.arr
                tm.len).1.getD m default).id = (tm.arr.getD j default).id :=
        moveReqLoop_event_ids _ _ _ _ _ _ _ _ _ _ _
          (Ev.enq (tm.arr.getD j default).id w h r d) hmem2 (tm.arr.getD j default).id rfl
      have hkid : ((moveLoop what (movePixW tm what) (movePixH tm what) tm.arr
          tm.len).1.getD k default).id = (tm.arr.getD j default).id := by
        rw [hk2]
        rfl
      have hne : k ≠ m := by omega
      refine nodup_map_id_getD_ne hnodup1 ?_ ?_ hne (hkid.trans hm3.symm)
      · rw [hL1]
        omega
      · rw [hL1]
        omega

/-- A pan of the initial viewport a quarter unit to the right (exactly
representable in float64). -/
def panRect : Rect := ⟨⟨-5, 4⟩, ⟨-3, 2⟩, ⟨3, 1⟩, ⟨3, 1⟩⟩

/-- Witness for C5: after the startup zoom with divisor 2, panning right by
a quarter unit keeps tile 0 (whose region overlaps the new viewport):
hypotheses discharged by computation, conclusion from the theorem. -/
theorem c5_move_keeps_overlapping_tiles_witness :
    (tmAfterInitialZoom.len ≤ tmAfterInitialZoom.arr.length
      ∧ (tmAfterInitialZoom.arr.map Tile.id).Nodup
      ∧ 0 < tmAfterInitialZoom.len
      ∧ overlaps (tmAfterInitialZoom.arr.getD 0 default).What panRect = true)
    ∧ (∀ tm2 ctr2 evs, tmAfterInitialZoom.MoveRequest panRect 9 = some (tm2, ctr2, evs) →
      (∃ k, k < tm2.arr.length ∧
        tm2.arr.getD k default =
          moveTile panRect (movePixW tmAfterInitialZoom panRect)
            (movePixH tmAfterInitialZoom panRect) (tmAfterInitialZoom.arr.getD 0 default))
      ∧ (∀ t : Tile, ∀ pw ph : F64,
          (moveTile panRect pw ph t).CurrentLOD = t.CurrentLOD ∧
          (moveTile panRect pw ph t).What = t.What ∧
          (moveTile panRect pw ph t).Texture0 = t.Texture0 ∧
          (moveTile panRect pw ph t).Texture1 = t.Texture1 ∧
          (moveTile panRect pw ph t).Enqueued = t.Enqueued ∧
          (moveTile panRect pw ph t).Discarder = t.Discarder ∧
          (moveTile panRect pw ph t).id = t.id)
      ∧ (∀ d, Ev.cancel (tmAfterInitialZoom.arr.getD 0 default).id d ∉ evs)
      ∧ (∀ w h r d, Ev.enq (tmAfterInitialZoom.arr.getD 0 default).id w h r d ∉ evs)) :=
  ⟨⟨by decide, by decide, by decide, by decide⟩,
   c5_move_keeps_overlapping_tiles tmAfterInitialZoom panRect 9
     (by decide) (by decide) 0 (by decide) (by decide)⟩

/-- C8: if the number of grid tiles required for the requested region
exceeds the capacity of the pre-allocated tile array, the request fails
fatally (the `panic` of lines 567 and 632, modelled as `ZRes.panicked` and
`none`), rather than recovering or retrying, for both `ZoomRequest` and
`MoveRequest`. -/
theorem c8_capacity_exceeded_panics (fuel : Nat) (tm : TileManager) (what : Rect)
    (ctr : Nat) :
    (zoomTx1 tm.Div what ≠ minInt32 → (tm.arr.length : ℤ) < zoomTotal tm.Div what →
      TileManager.ZoomRequest (fuel + 1) tm what ctr = .panicked)
    ∧ (tm.len ≤ tm.arr.length → (tm.arr.length : ℤ) < zoomTotal tm.Div what →
        tm.MoveRequest what ctr = none) := by
  constructor
  · intro htx hcap
    rw [TileManager.ZoomRequest]
    simp only []
    rw [if_neg htx, if_pos hcap]
  · intro hlen hcap
    rw [TileManager.MoveRequest]
    simp only []
    have hL1 : (moveLoop what (movePixW tm what) (movePixH tm what) tm.arr
        tm.len).1.length = tm.arr.length :=
      (moveLoopD_frame what (movePixW tm what) (movePixH tm what) tm.arr tm.len 0 tm.len
        rfl (by omega)).1
    rw [if_pos (by rw [hL1]; exact hcap)]

/-- Tile manager with an artificially truncated backing array, used to make
the capacity guard of C8 fire. -/
def smallCapTM : TileManager :=
  { NewTileManager 512 512 8 with arr := (NewTileManager 512 512 8).arr.take 2 }

/-- Witness for C8: on a manager whose backing array holds only 2 tiles, a
zoom and a move of the initial viewport (81 grid cells) both panic. -/
theorem c8_capacity_exceeded_panics_witness :
    (zoomTx1 smallCapTM.Div initialRect ≠ minInt32
      ∧ (smallCapTM.arr.length : ℤ) < zoomTotal smallCapTM.Div initialRect
      ∧ smallCapTM.len ≤ smallCapTM.arr.length)
    ∧ TileManager.ZoomRequest 1 smallCapTM initialRect 0 = .panicked
    ∧ smallCapTM.MoveRequest initialRect 0 = none :=
  ⟨⟨by decide, by decide, by decide⟩,
   (c8_capacity_exceeded_panics 0 smallCapTM initialRect 0).1 (by decide) (by decide),
   (c8_capacity_exceeded_panics 0 smallCapTM initialRect 0).2 (by decide) (by decide)⟩
